import Mathlib

/-!
Verification development for the `poly` core-backend.

Shallow embedding of the PnL rebuild engine (`src/core-backend/src/rebuild/`),
the incremental sync executor (`src/sync/sync_incremental_executor.hpp`), the
token-id filler (`src/sync/sync_token_filler.hpp`), the stats registry
(`src/stats/stats_manager.hpp`) and the replay serialiser
(`src/replayer/replayer.hpp`).

Modelling conventions:
* C++ `int64_t` arithmetic is modelled as `ℤ`; C++ `/` and `%` on signed
  integers truncate toward zero, so they are translated as `Int.tdiv`.
* C++ `std::string` is modelled as `List ℕ` (a byte list); `std::string`
  comparison is byte-wise, matching list equality / lexicographic order.
* Fallible code paths (failed `assert`, out-of-range indexing, division by
  zero) are modelled with `Option`: `none` means the process aborts.
-/

namespace Poly

/-- Byte-string model of C++ `std::string`. -/
abbrev Str := List ℕ

/-- A kernel-reducible `DecidableEq` for `Option` (the library instance blocks
kernel evaluation on an `Eq.rec`). -/
def optDecEq {α : Type} [DecidableEq α] : (a b : Option α) → Decidable (a = b)
  | none, none => isTrue rfl
  | some x, some y =>
    if h : x = y then isTrue (congrArg some h) else isFalse (fun he => h (Option.some.inj he))
  | none, some _ => isFalse (fun he => Option.noConfusion he)
  | some _, none => isFalse (fun he => Option.noConfusion he)

instance {α : Type} [DecidableEq α] : DecidableEq (Option α) := optDecEq

-- ============================================================================
-- Rebuild engine: data model (src/rebuild/rebuilder_types.hpp)
-- ============================================================================

/-- `MAX_OUTCOMES = 8` from `rebuilder_types.hpp`. -/
abbrev MAX_OUTCOMES : ℕ := 8

/-- `EventType` from `rebuilder_types.hpp` (codes 0..4). -/
inductive EventType
  | buy
  | sell
  | split
  | merge
  | redemption
deriving DecidableEq, Repr

/-- The `uint8_t` value of each `EventType` constant. -/
def EventType.code : EventType → ℕ
  | .buy => 0
  | .sell => 1
  | .split => 2
  | .merge => 3
  | .redemption => 4

/-- `RawEvent` from `rebuilder_types.hpp`.  `token_idx` is a `uint8_t` in the
source; `255` (`0xFF`) is used for all-outcome events. -/
structure RawEvent where
  timestamp : ℤ
  cond_idx : ℕ
  type : EventType
  token_idx : ℕ
  amount : ℤ
  price : ℤ
deriving DecidableEq, Repr

/-- `ConditionInfo` from `rebuilder_types.hpp`. -/
structure ConditionInfo where
  outcome_count : ℕ
  payout_numerators : List ℤ
  payout_denominator : ℤ
deriving DecidableEq, Repr

/-- `ReplayState` from `rebuilder_types.hpp`: fixed arrays of 8 positions and
costs plus the cumulative realized PnL. -/
structure ReplayState where
  positions : Fin MAX_OUTCOMES → ℤ
  cost : Fin MAX_OUTCOMES → ℤ
  realized_pnl : ℤ

instance (n : ℕ) : DecidableEq (Fin n → ℤ) := fun f g =>
  if h : ((List.finRange n).all fun k => f k == g k) = true then
    isTrue (funext fun k => eq_of_beq (List.all_eq_true.mp h k (List.mem_finRange k)))
  else
    isFalse (fun he => h (List.all_eq_true.mpr fun k _ => by simp [he]))

instance : DecidableEq ReplayState := fun a b =>
  if h : a.positions = b.positions ∧ a.cost = b.cost ∧ a.realized_pnl = b.realized_pnl then
    isTrue (by cases a; cases b; simp_all)
  else
    isFalse (fun he => h (by cases he; exact ⟨rfl, rfl, rfl⟩))

/-- The zero-initialised `ReplayState` (`= {}` in the C++ struct). -/
def replayZero : ReplayState :=
  { positions := fun _ => 0, cost := fun _ => 0, realized_pnl := 0 }

-- ============================================================================
-- Event-application algebra (rebuilder.hpp, apply_buy .. apply_redemption)
-- ============================================================================

/-- `apply_buy` (rebuilder.hpp:745-750).  The C++ function asserts
`i < MAX_OUTCOMES` before indexing; an out-of-range index aborts (`none`). -/
def applyBuy (i : ℕ) (amount price : ℤ) (st : ReplayState) : Option ReplayState :=
  if h : i < MAX_OUTCOMES then
    some { st with
      cost := Function.update st.cost ⟨i, h⟩ (st.cost ⟨i, h⟩ + amount * price),
      positions := Function.update st.positions ⟨i, h⟩ (st.positions ⟨i, h⟩ + amount) }
  else none

/-- `apply_sell` (rebuilder.hpp:753-763).  No-op when `positions[i] <= 0`,
otherwise removes a proportional share of the cost basis and realizes PnL.
All divisions are C++ truncating division (`Int.tdiv`). -/
def applySell (i : ℕ) (amount price : ℤ) (st : ReplayState) : Option ReplayState :=
  if h : i < MAX_OUTCOMES then
    let pos := st.positions ⟨i, h⟩
    if pos ≤ 0 then some st
    else
      let cost_removed := (st.cost ⟨i, h⟩ * amount).tdiv pos
      some { positions := Function.update st.positions ⟨i, h⟩ (pos - amount),
             cost := Function.update st.cost ⟨i, h⟩ (st.cost ⟨i, h⟩ - cost_removed),
             realized_pnl := st.realized_pnl + (amount * price - cost_removed).tdiv 1000000 }
  else none

/-- `apply_split` (rebuilder.hpp:767-773): for each outcome `i < outcome_count`,
`cost[i] += amount * (1e6 / outcome_count)` and `positions[i] += amount`.
Phase 1 asserts `0 < outcome_count ≤ 8`; outside that range the C++ loop either
divides by zero or indexes out of bounds, modelled as `none`.  Each loop
iteration touches only index `i`, so the loop is translated index-wise. -/
def applySplit (cond : ConditionInfo) (amount : ℤ) (st : ReplayState) : Option ReplayState :=
  if 0 < cond.outcome_count ∧ cond.outcome_count ≤ MAX_OUTCOMES then
    let ip : ℤ := Int.tdiv 1000000 cond.outcome_count
    some { st with
      positions := fun k =>
        if k.val < cond.outcome_count then st.positions k + amount else st.positions k,
      cost := fun k =>
        if k.val < cond.outcome_count then st.cost k + amount * ip else st.cost k }
  else none

/-- `apply_merge` (rebuilder.hpp:777-787): for each outcome `i < outcome_count`
with `positions[i] > 0`, remove a proportional cost share and realize PnL at
the implied price `1e6 / outcome_count`.  Each iteration reads and writes only
index `i` plus the `realized_pnl` accumulator, so the loop is translated as an
index-wise update plus a sum over the active indices. -/
def applyMerge (cond : ConditionInfo) (amount : ℤ) (st : ReplayState) : Option ReplayState :=
  if 0 < cond.outcome_count ∧ cond.outcome_count ≤ MAX_OUTCOMES then
    let ip : ℤ := Int.tdiv 1000000 cond.outcome_count
    some { positions := fun k =>
             if k.val < cond.outcome_count ∧ 0 < st.positions k
             then st.positions k - amount else st.positions k,
           cost := fun k =>
             if k.val < cond.outcome_count ∧ 0 < st.positions k
             then st.cost k - (st.cost k * amount).tdiv (st.positions k) else st.cost k,
           realized_pnl := st.realized_pnl +
             (((List.finRange MAX_OUTCOMES).filter
                 (fun k => decide (k.val < cond.outcome_count ∧ 0 < st.positions k))).map
               (fun k => (amount * ip - (st.cost k * amount).tdiv (st.positions k)).tdiv 1000000)).sum }
  else none

/-- `apply_redemption` (rebuilder.hpp:790-804): no-op when the condition is
unresolved (`payout_denominator == 0`); otherwise each outcome
`i < min outcome_count payout_numerators.length` with positive position is
cleared at `payout_price = payout_numerators[i] * 1e6 / payout_denominator`. -/
def applyRedemption (cond : ConditionInfo) (st : ReplayState) : Option ReplayState :=
  if cond.payout_denominator = 0 then some st
  else if cond.outcome_count ≤ MAX_OUTCOMES then
    let bound := min cond.outcome_count cond.payout_numerators.length
    some { positions := fun k =>
             if k.val < bound ∧ 0 < st.positions k then 0 else st.positions k,
           cost := fun k =>
             if k.val < bound ∧ 0 < st.positions k then 0 else st.cost k,
           realized_pnl := st.realized_pnl +
             (((List.finRange MAX_OUTCOMES).filter
                 (fun k => decide (k.val < bound ∧ 0 < st.positions k))).map
               (fun k =>
                 (st.positions k *
                   ((cond.payout_numerators.getD k.val 0 * 1000000).tdiv cond.payout_denominator)
                  - st.cost k).tdiv 1000000)).sum }
  else none

/-- `apply_event` (rebuilder.hpp:724-742). -/
def applyEvent (cond : ConditionInfo) (e : RawEvent) (st : ReplayState) : Option ReplayState :=
  match e.type with
  | .buy => applyBuy e.token_idx e.amount e.price st
  | .sell => applySell e.token_idx e.amount e.price st
  | .split => applySplit cond e.amount st
  | .merge => applyMerge cond e.amount st
  | .redemption => applyRedemption cond st

-- ============================================================================
-- C1: sell semantics + scenario S1
-- ============================================================================

/-- The condition used in scenarios S2/S3: `outcome_count = 2`,
`payout_numerators = [1, 0]`, `payout_denominator = 1`. -/
def cond2 : ConditionInfo :=
  { outcome_count := 2, payout_numerators := [1, 0], payout_denominator := 1 }

/-- Expected `ReplayState` after `Split(amt=1e6)` on `cond2`. -/
def s2mid : ReplayState :=
  { positions := fun k => if k.val < 2 then 1000000 else 0,
    cost := fun k => if k.val < 2 then 500000000000 else 0,
    realized_pnl := 0 }

/-- Expected `ReplayState` after Buy(1e6 @ 400000) then Sell(1e6 @ 600000). -/
def s1fin : ReplayState :=
  { positions := fun _ => 0, cost := fun _ => 0, realized_pnl := 200000 }

/-- C1: for every `ReplayState` and every Sell on token index `i`:
if `positions[i] ≤ 0` the state is unchanged; otherwise
`cost_removed = cost[i]*amt/positions[i]` (truncating division),
`realized_pnl += (amt*px - cost_removed)/1e6`, `cost[i] -= cost_removed` and
`positions[i] -= amt`.  Moreover, from the zero state,
Buy(tok=0, amt=1e6, px=400000) then Sell(tok=0, amt=1e6, px=600000) ends with
`positions[0] = 0`, `cost[0] = 0`, `realized_pnl = 200000`. -/
theorem sell_noop_or_proportional_and_S1 :
    (∀ (st : ReplayState) (i : ℕ) (hi : i < MAX_OUTCOMES) (amt px : ℤ),
      (st.positions ⟨i, hi⟩ ≤ 0 → applySell i amt px st = some st) ∧
      (0 < st.positions ⟨i, hi⟩ →
        ∃ st', applySell i amt px st = some st' ∧
          st'.realized_pnl = st.realized_pnl +
            (amt * px - (st.cost ⟨i, hi⟩ * amt).tdiv (st.positions ⟨i, hi⟩)).tdiv 1000000 ∧
          st'.cost ⟨i, hi⟩ = st.cost ⟨i, hi⟩ - (st.cost ⟨i, hi⟩ * amt).tdiv (st.positions ⟨i, hi⟩) ∧
          st'.positions ⟨i, hi⟩ = st.positions ⟨i, hi⟩ - amt)) ∧
    (applyBuy 0 1000000 400000 replayZero).bind (applySell 0 1000000 600000) = some s1fin := by
  constructor
  · intro st i hi amt px
    constructor
    · intro hle
      simp only [applySell, dif_pos hi]
      rw [if_pos hle]
    · intro hpos
      have hne : ¬ st.positions ⟨i, hi⟩ ≤ 0 := by omega
      refine ⟨{ positions := Function.update st.positions ⟨i, hi⟩ (st.positions ⟨i, hi⟩ - amt),
                cost := Function.update st.cost ⟨i, hi⟩
                  (st.cost ⟨i, hi⟩ - (st.cost ⟨i, hi⟩ * amt).tdiv (st.positions ⟨i, hi⟩)),
                realized_pnl := st.realized_pnl +
                  (amt * px - (st.cost ⟨i, hi⟩ * amt).tdiv (st.positions ⟨i, hi⟩)).tdiv 1000000 },
              ?_, rfl, by simp, by simp⟩
      simp only [applySell, dif_pos hi]
      rw [if_neg hne]
  · decide

/-- Witness for C1: a concrete positive-position sell, with both hypotheses
discharged at `i = 0` on a state with `positions[0] = 3`. -/
theorem sell_noop_or_proportional_and_S1_witness :
    ∃ st', applySell 0 5 7 ⟨fun _ => 3, fun _ => 30, 0⟩ = some st' ∧
      st'.realized_pnl = (0 : ℤ) +
        ((5 * 7 : ℤ) - ((30 * 5 : ℤ)).tdiv 3).tdiv 1000000 ∧
      st'.cost ⟨0, by decide⟩ = (30 : ℤ) - ((30 * 5 : ℤ)).tdiv 3 ∧
      st'.positions ⟨0, by decide⟩ = (3 : ℤ) - 5 :=
  (sell_noop_or_proportional_and_S1.1 ⟨fun _ => 3, fun _ => 30, 0⟩ 0 (by decide) 5 7).2
    (by decide)

-- ============================================================================
-- C2: split + redemption scenario S2
-- ============================================================================

/-- C2: from the zero state on `cond2` (outcome_count 2, payouts `[1,0]/1`),
`Split(amt=1e6)` yields `positions = [1e6, 1e6]`, `cost = [5e11, 5e11]`; the
payout prices of the subsequent Redemption are `1e6` (outcome 0) and `0`
(outcome 1); the Redemption clears all positions and costs and leaves
`realized_pnl = 0`. -/
theorem split_then_redemption_breaks_even_S2 :
    applySplit cond2 1000000 replayZero = some s2mid ∧
    (cond2.payout_numerators.getD 0 0 * 1000000).tdiv cond2.payout_denominator = 1000000 ∧
    (cond2.payout_numerators.getD 1 0 * 1000000).tdiv cond2.payout_denominator = 0 ∧
    applyRedemption cond2 s2mid =
      some { positions := fun _ => 0, cost := fun _ => 0, realized_pnl := 0 } := by
  decide

-- ============================================================================
-- Incremental sync executor: cursor logic (sync_incremental_executor.hpp)
-- ============================================================================

/-- `entities::SyncMode` (core/entity_definition.hpp). -/
inductive SyncMode
  | byId
  | byTimestamp
  | byResolutionTimestamp
deriving DecidableEq

/-- `GRAPHQL_BATCH_SIZE = 1000`. -/
def GRAPHQL_BATCH_SIZE : ℕ := 1000

/-- A response item, reduced to the two fields `update_cursor` reads: the
`id` string and the order field rendered as a string by `extract_value`. -/
structure SyncItem where
  id : Str
  orderVal : Str
deriving DecidableEq

/-- `SyncCursor` (core/database.hpp): a string value and an `int` skip. -/
structure Cursor where
  value : Str
  skip : ℤ
deriving DecidableEq

/-- The trailing-tie count of `update_cursor` (sync_incremental_executor.hpp,
lines 228-233): walk the page from the back, counting items whose order field
equals `lastVal`, stopping at the first mismatch. -/
def countTrailing (lastVal : Str) (items : List SyncItem) : ℕ :=
  (items.reverse.takeWhile fun it => it.orderVal == lastVal).length

/-- `update_cursor` (sync_incremental_executor.hpp:197-235).  The C++ function
asserts the page is nonempty; the `[]` case below is the unreachable assert
path.  `ById`: the cursor becomes the last item's id with skip 0.  Timestamp
modes: a short page sets `(last_val, 0)`; a full page whose last value equals
the current cursor value adds `BATCH` to skip; otherwise the cursor becomes
`(last_val, trailing-tie count)`. -/
def updateCursor (mode : SyncMode) (c : Cursor) (items : List SyncItem) : Cursor :=
  match items.getLast? with
  | none => c
  | some last =>
    match mode with
    | .byId => { value := last.id, skip := 0 }
    | _ =>
      let lastVal := last.orderVal
      if items.length < GRAPHQL_BATCH_SIZE then
        { value := lastVal, skip := 0 }
      else if lastVal = c.value then
        { c with skip := c.skip + (GRAPHQL_BATCH_SIZE : ℤ) }
      else
        { value := lastVal, skip := (countTrailing lastVal items : ℤ) }

/-- The cursors persisted by `flush_buffer` while the executor consumes the
given pages, starting from cursor `c` (`on_response`, lines 139-170).  The
buffer holds exactly one page's values when full (the flush-at-`BATCH` check
fires on every full page) and is flushed again on the final short page, so
every nonempty page persists exactly one cursor, namely the cursor after
`update_cursor`; an empty page flushes nothing new and ends the round. -/
def persistedCursors (mode : SyncMode) (c : Cursor) : List (List SyncItem) → List Cursor
  | [] => []
  | items :: rest =>
    if items.isEmpty then []
    else
      let c' := updateCursor mode c items
      if items.length < GRAPHQL_BATCH_SIZE then [c']
      else c' :: persistedCursors mode c' rest

/-- The byte string `"1700000000"`. -/
def ts17e9 : Str := [49, 55, 48, 48, 48, 48, 48, 48, 48, 48]

/-- The byte string `"1700000050"`. -/
def ts17e9p50 : Str := [49, 55, 48, 48, 48, 48, 48, 48, 53, 48]

/-- The byte string `"1700000100"`. -/
def ts17e9p100 : Str := [49, 55, 48, 48, 48, 48, 48, 49, 48, 48]

/-- The three pages of scenario S5: 1000 items at timestamp 1700000000, then
500 items at the same timestamp, then 300 items ending at 1700000100 with
exactly 10 trailing items sharing that timestamp. -/
def s5page1 : List SyncItem := List.replicate 1000 ⟨[], ts17e9⟩

/-- Second S5 page: 500 items, all still at timestamp 1700000000. -/
def s5page2 : List SyncItem := List.replicate 500 ⟨[], ts17e9⟩

/-- Third S5 page: 290 items at 1700000050 followed by 10 items at
1700000100. -/
def s5page3 : List SyncItem :=
  List.replicate 290 ⟨[], ts17e9p50⟩ ++ List.replicate 10 ⟨[], ts17e9p100⟩

set_option maxRecDepth 100000 in
/-- C4 counterexample: in `ByTimestamp` mode, the first page of 1000
same-timestamp items gives `("1700000000", 1000)` as claimed, but the second
page of 500 same-timestamp items is a *short* page, so `update_cursor` takes
the `|items| < BATCH` branch and resets skip to 0 — not 1500; the third page
(300 items) is also short, so its skip is 0 — not 10. -/
theorem cursor_S5_counterexample :
    updateCursor .byTimestamp ⟨[], 0⟩ s5page1 = ⟨ts17e9, 1000⟩ ∧
    (updateCursor .byTimestamp (updateCursor .byTimestamp ⟨[], 0⟩ s5page1) s5page2).skip ≠ 1500 ∧
    (updateCursor .byTimestamp
      (updateCursor .byTimestamp (updateCursor .byTimestamp ⟨[], 0⟩ s5page1) s5page2)
      s5page3).skip ≠ 10 := by
  decide

set_option maxRecDepth 100000 in
/-- C4 amended: after the full first page the cursor is
`("1700000000", 1000)`; the short second page resets it to
`("1700000000", 0)`; the short third page sets `("1700000100", 0)` — the
trailing-tie count is only computed for full pages. -/
theorem cursor_S5_amended :
    updateCursor .byTimestamp ⟨[], 0⟩ s5page1 = ⟨ts17e9, 1000⟩ ∧
    updateCursor .byTimestamp (updateCursor .byTimestamp ⟨[], 0⟩ s5page1) s5page2 =
      ⟨ts17e9, 0⟩ ∧
    updateCursor .byTimestamp
      (updateCursor .byTimestamp (updateCursor .byTimestamp ⟨[], 0⟩ s5page1) s5page2)
      s5page3 = ⟨ts17e9p100, 0⟩ := by
  decide

/-- An element returned by `getLast?` is a member of the list. -/
theorem mem_of_getLast_opt {α : Type} {l : List α} {a : α} (h : l.getLast? = some a) :
    a ∈ l := by
  obtain ⟨hne, rfl⟩ := List.mem_getLast?_eq_getLast (l := l) (x := a) h
  exact List.getLast_mem hne

/-- Lexicographic `≤` on byte strings (the order used by C++
`std::string::operator<`). -/
def lexLe (a b : Str) : Prop := a = b ∨ List.Lex (· < ·) a b

instance (a b : Str) : Decidable (lexLe a b) :=
  inferInstanceAs (Decidable (a = b ∨ List.Lex (· < ·) a b))

/-- Decimal value of a cursor string: models `strtoll`-style parsing of the
canonical non-negative decimal timestamps the executor stores. -/
def parseDec (s : Str) : ℤ :=
  (s.foldl (fun a c => a * 10 + (c - 48)) 0 : ℕ)

/-- Lexicographic `≤` on `(value-as-int, skip)` pairs. -/
def pairLe (p q : ℤ × ℤ) : Prop := p.1 < q.1 ∨ (p.1 = q.1 ∧ p.2 ≤ q.2)

instance (p q : ℤ × ℤ) : Decidable (pairLe p q) :=
  inferInstanceAs (Decidable (p.1 < q.1 ∨ (p.1 = q.1 ∧ p.2 ≤ q.2)))

/-- The `id_gt` response contract for a `ById` run: every item of every page
sits at or above (lexicographically) the cursor value in force when that page
was requested.  (The GraphQL query requests strictly greater ids; the weaker
`≤` is all monotonicity needs.) -/
def ContractById : Cursor → List (List SyncItem) → Prop
  | _, [] => True
  | c, items :: rest =>
    (∀ it ∈ items, lexLe c.value it.id) ∧
      ContractById (updateCursor .byId c items) rest

instance ContractById.dec : ∀ c pages, Decidable (ContractById c pages)
  | _, [] => isTrue trivial
  | c, items :: rest =>
    have : Decidable (ContractById (updateCursor .byId c items) rest) :=
      ContractById.dec _ rest
    inferInstanceAs (Decidable (_ ∧ _))

/-- The `<field>_gte` response contract for a timestamp-mode run: every item
of every page has an order-field value numerically at or above the cursor
value in force when that page was requested. -/
def ContractTs (mode : SyncMode) : Cursor → List (List SyncItem) → Prop
  | _, [] => True
  | c, items :: rest =>
    (∀ it ∈ items, parseDec c.value ≤ parseDec it.orderVal) ∧
      ContractTs mode (updateCursor mode c items) rest

instance ContractTs.dec (mode : SyncMode) : ∀ c pages, Decidable (ContractTs mode c pages)
  | _, [] => isTrue trivial
  | c, items :: rest =>
    have : Decidable (ContractTs mode (updateCursor mode c items) rest) :=
      ContractTs.dec mode _ rest
    inferInstanceAs (Decidable (_ ∧ _))

/-- In `ById` mode the new cursor value is the last item's id (or unchanged
for the unreachable empty page), so it stays at or above the old value under
the response contract. -/
theorem lexLe_updateCursor_byId (c : Cursor) (items : List SyncItem)
    (hc : ∀ it ∈ items, lexLe c.value it.id) :
    lexLe c.value (updateCursor .byId c items).value := by
  cases hl : items.getLast? with
  | none => simp [updateCursor, hl, lexLe]
  | some last =>
    simp only [updateCursor, hl]
    exact hc last (mem_of_getLast_opt hl)

/-- In the timestamp modes the new cursor value is either unchanged or the
last item's order value, so its parsed value never decreases under the
response contract. -/
theorem parseDec_le_updateCursor_ts (mode : SyncMode) (c : Cursor) (items : List SyncItem)
    (hm : mode ≠ .byId) (hc : ∀ it ∈ items, parseDec c.value ≤ parseDec it.orderVal) :
    parseDec c.value ≤ parseDec (updateCursor mode c items).value := by
  cases hl : items.getLast? with
  | none => simp [updateCursor, hl]
  | some last =>
    have hlast := hc last (mem_of_getLast_opt hl)
    cases mode with
    | byId => exact absurd rfl hm
    | byTimestamp =>
      simp only [updateCursor, hl]
      split
      · exact hlast
      · split
        · exact le_refl _
        · exact hlast
    | byResolutionTimestamp =>
      simp only [updateCursor, hl]
      split
      · exact hlast
      · split
        · exact le_refl _
        · exact hlast

set_option maxRecDepth 100000 in
/-- C5 counterexample: in `ByTimestamp` mode a full page of 1000 items at
timestamp 5 persists the cursor `("5", 1000)`, and the following short page
(one more item at timestamp 5) persists `("5", 0)` — even though the pages
satisfy the `timestamp_gte` response contract, the persisted
`(value-as-int, skip)` pairs decrease lexicographically. -/
theorem cursor_monotone_counterexample :
    ContractTs .byTimestamp ⟨[], 0⟩
      [List.replicate 1000 ⟨[], [53]⟩, [⟨[], [53]⟩]] ∧
    ¬ List.Chain' pairLe
      ((persistedCursors .byTimestamp ⟨[], 0⟩
          [List.replicate 1000 ⟨[], [53]⟩, [⟨[], [53]⟩]]).map
        (fun c => (parseDec c.value, c.skip))) := by
  constructor
  · refine ⟨fun it hit => ?_, fun it hit => ?_, trivial⟩
    · cases List.eq_of_mem_replicate hit
      decide
    · have h1 : updateCursor .byTimestamp ⟨[], 0⟩ (List.replicate 1000 ⟨[], [53]⟩) =
          ⟨[53], 1000⟩ := by decide
      rw [h1]
      cases List.mem_singleton.mp hit
      decide
  · have hper : persistedCursors .byTimestamp ⟨[], 0⟩
        [List.replicate 1000 ⟨[], [53]⟩, [⟨[], [53]⟩]] =
        [⟨[53], 1000⟩, ⟨[53], 0⟩] := by decide
    rw [hper]
    intro hch
    simp only [List.map_cons, List.map_nil] at hch
    exact absurd (List.chain'_cons.mp hch).1 (by decide)

/-- C5 amended: under the response contracts implied by the query shapes,
`ById` cursor values are non-decreasing lexicographically across successive
flushes, and in the timestamp modes the cursor value parsed as an integer is
non-decreasing — but only the value: the `(value, skip)` pair may decrease,
because a short page resets `skip` to 0 after full-page ties advanced it. -/
theorem cursor_monotone_amended :
    (∀ (c : Cursor) (pages : List (List SyncItem)), ContractById c pages →
      List.Chain' (fun a b => lexLe a.value b.value)
        (c :: persistedCursors .byId c pages)) ∧
    (∀ (mode : SyncMode) (c : Cursor) (pages : List (List SyncItem)),
      mode ≠ .byId → ContractTs mode c pages →
      List.Chain' (fun a b => parseDec a.value ≤ parseDec b.value)
        (c :: persistedCursors mode c pages)) := by
  constructor
  · intro c pages hc
    induction pages generalizing c with
    | nil => simp [persistedCursors]
    | cons items rest ih =>
      obtain ⟨h1, h2⟩ := hc
      by_cases he : items.isEmpty
      · simp [persistedCursors, he]
      · by_cases hs : items.length < GRAPHQL_BATCH_SIZE
        · simp only [persistedCursors, he, if_neg, if_pos hs, Bool.false_eq_true, ite_false]
          exact List.chain'_cons.mpr ⟨lexLe_updateCursor_byId c items h1, List.chain'_singleton _⟩
        · simp only [persistedCursors, he, Bool.false_eq_true, ite_false, if_neg hs]
          exact List.chain'_cons.mpr ⟨lexLe_updateCursor_byId c items h1, ih _ h2⟩
  · intro mode c pages hm hc
    induction pages generalizing c with
    | nil => simp [persistedCursors]
    | cons items rest ih =>
      obtain ⟨h1, h2⟩ := hc
      by_cases he : items.isEmpty
      · simp [persistedCursors, he]
      · by_cases hs : items.length < GRAPHQL_BATCH_SIZE
        · simp only [persistedCursors, he, Bool.false_eq_true, ite_false, if_pos hs]
          exact List.chain'_cons.mpr
            ⟨parseDec_le_updateCursor_ts mode c items hm h1, List.chain'_singleton _⟩
        · simp only [persistedCursors, he, Bool.false_eq_true, ite_false, if_neg hs]
          exact List.chain'_cons.mpr
            ⟨parseDec_le_updateCursor_ts mode c items hm h1, ih _ h2⟩

/-- Witness for the amended C5 theorem: one single-page `ById` run and one
single-page `ByTimestamp` run, both honouring their response contracts. -/
theorem cursor_monotone_amended_witness :
    List.Chain' (fun a b => lexLe a.value b.value)
      (Cursor.mk [] 0 :: persistedCursors .byId ⟨[], 0⟩ [[⟨[49], []⟩]]) ∧
    List.Chain' (fun a b => parseDec a.value ≤ parseDec b.value)
      (Cursor.mk [] 0 :: persistedCursors .byTimestamp ⟨[], 0⟩ [[⟨[], [53]⟩]]) :=
  ⟨cursor_monotone_amended.1 ⟨[], 0⟩ [[⟨[49], []⟩]] (by decide),
   cursor_monotone_amended.2 .byTimestamp ⟨[], 0⟩ [[⟨[], [53]⟩]] (by decide) (by decide)⟩

-- ============================================================================
-- Token-id filler, Phase 2 (sync_token_filler.hpp:89-150, core/database.hpp)
-- ============================================================================

/-- A `condition` row as the filler reads it: id, resolutionTimestamp and the
nullable `positionIds` column. -/
structure CondRow where
  id : Str
  resolutionTimestamp : ℤ
  positionIds : Option Str
deriving DecidableEq

/-- A GraphQL `{id positionIds}` response item of the Phase-2 query.
`positionIds = none` models a missing or JSON-null field (the C++ guard
`item.contains("positionIds") && !item["positionIds"].is_null()`). -/
structure PnlItem where
  id : Str
  positionIds : Option Str
deriving DecidableEq

/-- The byte string `"[]"` written for permanently missing ids. -/
def emptyArrayStr : Str := [91, 93]

/-- `Database::get_null_positionid_conditions` (core/database.hpp:156-168):
`SELECT id FROM condition WHERE positionIds IS NULL ORDER BY
resolutionTimestamp LIMIT n`.  SQL leaves the order of equal
`resolutionTimestamp` rows open; a stable sort of the table order is one
conforming refinement. -/
def selectNullPositionIds (rows : List CondRow) (n : ℕ) : List Str :=
  ((List.insertionSort (fun a b => a.resolutionTimestamp ≤ b.resolutionTimestamp)
      (rows.filter (fun r => r.positionIds.isNone))).take n).map (·.id)

/-- `Database::update_condition_position_ids` (core/database.hpp:170-174):
`UPDATE condition SET positionIds = v WHERE id = i`. -/
def updatePositionIds (rows : List CondRow) (i : Str) (v : Str) : List CondRow :=
  rows.map (fun r => if r.id = i then { r with positionIds := some v } else r)

/-- The write one response item performs on one row
(sync_token_filler.hpp:134-141): rows matching the item's id get its
positionIds — but only when the field is present and non-null. -/
def itemWrite (item : PnlItem) (r : CondRow) : CondRow :=
  match item.positionIds with
  | some v => if r.id = item.id then { r with positionIds := some v } else r
  | none => r

/-- The write the not-found pass performs on one row
(sync_token_filler.hpp:144-149): a requested id that appeared nowhere in the
response marks its rows with `"[]"`. -/
def missWrite (found : List Str) (i : Str) (r : CondRow) : CondRow :=
  if i ∈ found then r
  else if r.id = i then { r with positionIds := some emptyArrayStr } else r

/-- The combined effect of one successful Phase-2 iteration on a single row:
first every response item's write, then the not-found pass over the
requested ids. -/
def batchRow (ids : List Str) (items : List PnlItem) (r : CondRow) : CondRow :=
  ids.foldl (fun r i => missWrite (items.map PnlItem.id) i r)
    (items.foldl (fun r it => itemWrite it r) r)

/-- One successful Phase-2 loop iteration (sync_token_filler.hpp:130-149):
for each response item with a present, non-null `positionIds`, update the
matching condition row; then write `"[]"` to every requested id that did not
appear in the response. -/
def applyBatch (rows : List CondRow) (ids : List Str) (items : List PnlItem) :
    List CondRow :=
  let found := items.map PnlItem.id
  let rows1 := items.foldl
    (fun acc item =>
      match item.positionIds with
      | some v => updatePositionIds acc item.id v
      | none => acc)
    rows
  ids.foldl (fun acc i => if i ∈ found then acc else updatePositionIds acc i emptyArrayStr)
    rows1

/-- Folding a family of row-wise maps over a list factors into one map. -/
theorem foldl_map_pointwise {β : Type} (s : β → CondRow → CondRow) :
    ∀ (l : List β) (rows : List CondRow),
      l.foldl (fun acc x => acc.map (s x)) rows =
        rows.map (fun r => l.foldl (fun r x => s x r) r)
  | [], rows => by simp
  | x :: l, rows => by
    rw [List.foldl_cons, foldl_map_pointwise s l (rows.map (s x)), List.map_map]
    simp [Function.comp]

/-- `applyBatch` acts row-wise: it is the map of `batchRow`. -/
theorem applyBatch_eq_map (rows : List CondRow) (ids : List Str) (items : List PnlItem) :
    applyBatch rows ids items = rows.map (batchRow ids items) := by
  unfold applyBatch batchRow
  have h1 : ∀ (acc : List CondRow) (item : PnlItem),
      (match item.positionIds with
       | some v => updatePositionIds acc item.id v
       | none => acc) = acc.map (itemWrite item) := by
    intro acc item
    cases hp : item.positionIds with
    | none =>
      have hw : itemWrite item = id := funext fun r => by simp [itemWrite, hp]
      rw [hw, List.map_id]
    | some v =>
      have hw : itemWrite item =
          fun r => if r.id = item.id then { r with positionIds := some v } else r :=
        funext fun r => by simp [itemWrite, hp]
      rw [hw]
      rfl
  have h2 : ∀ (acc : List CondRow) (i : Str),
      (if i ∈ items.map PnlItem.id then acc else updatePositionIds acc i emptyArrayStr) =
        acc.map (missWrite (items.map PnlItem.id) i) := by
    intro acc i
    by_cases hf : i ∈ items.map PnlItem.id
    · have hw : missWrite (items.map PnlItem.id) i = id :=
        funext fun r => by simp [missWrite, hf]
      rw [hw, List.map_id, if_pos hf]
    · have hw : missWrite (items.map PnlItem.id) i =
          fun r => if r.id = i then { r with positionIds := some emptyArrayStr } else r :=
        funext fun r => by simp [missWrite, hf]
      rw [hw, if_neg hf]
      rfl
  calc
    List.foldl (fun acc i => if i ∈ items.map PnlItem.id then acc
        else updatePositionIds acc i emptyArrayStr)
      (List.foldl (fun acc item =>
        match item.positionIds with
        | some v => updatePositionIds acc item.id v
        | none => acc) rows items) ids
      = List.foldl (fun acc i => acc.map (missWrite (items.map PnlItem.id) i))
          (List.foldl (fun acc item => acc.map (itemWrite item)) rows items) ids := by
        rw [show (fun (acc : List CondRow) (item : PnlItem) =>
              match item.positionIds with
              | some v => updatePositionIds acc item.id v
              | none => acc) = fun acc item => acc.map (itemWrite item) from
            funext fun acc => funext fun item => h1 acc item,
          show (fun (acc : List CondRow) (i : Str) =>
              if i ∈ items.map PnlItem.id then acc
              else updatePositionIds acc i emptyArrayStr) =
                fun acc i => acc.map (missWrite (items.map PnlItem.id) i) from
            funext fun acc => funext fun i => h2 acc i]
    _ = rows.map (fun r =>
          List.foldl (fun r i => missWrite (items.map PnlItem.id) i r)
            (List.foldl (fun r it => itemWrite it r) r items) ids) := by
        rw [foldl_map_pointwise, foldl_map_pointwise, List.map_map]
        simp [Function.comp]

/-- The response-item pass leaves a row alone when every item either carries a
null `positionIds` or has a different id. -/
theorem itemFold_skip : ∀ (items : List PnlItem) (r : CondRow),
    (∀ it ∈ items, it.positionIds = none ∨ r.id ≠ it.id) →
    items.foldl (fun r it => itemWrite it r) r = r
  | [], _, _ => rfl
  | it :: rest, r, h => by
    have hstep : itemWrite it r = r := by
      rcases h it (List.mem_cons_self it rest) with hp | hid
      · simp [itemWrite, hp]
      · cases hp : it.positionIds with
        | none => simp [itemWrite, hp]
        | some v => simp [itemWrite, hp, hid]
    rw [List.foldl_cons, hstep]
    exact itemFold_skip rest r (fun x hx => h x (List.mem_cons_of_mem _ hx))

/-- The not-found pass leaves a row alone when its id was returned. -/
theorem missFold_skip : ∀ (ids : List Str) (found : List Str) (r : CondRow),
    r.id ∈ found →
    ids.foldl (fun r i => missWrite found i r) r = r
  | [], _, _, _ => rfl
  | i :: rest, found, r, h => by
    have hstep : missWrite found i r = r := by
      by_cases hf : i ∈ found
      · simp [missWrite, hf]
      · have : r.id ≠ i := fun he => hf (he ▸ h)
        simp [missWrite, hf, this]
    rw [List.foldl_cons, hstep]
    exact missFold_skip rest found r h

/-- The not-found pass leaves a row alone once it is already marked `"[]"`. -/
theorem missFold_marked : ∀ (ids : List Str) (found : List Str) (r : CondRow),
    r.positionIds = some emptyArrayStr →
    ids.foldl (fun r i => missWrite found i r) r = r
  | [], _, _, _ => rfl
  | i :: rest, found, r, h => by
    have hstep : missWrite found i r = r := by
      unfold missWrite
      split
      · rfl
      · split
        · cases r
          simp_all
        · rfl
    rw [List.foldl_cons, hstep]
    exact missFold_marked rest found r h

/-- The not-found pass marks a row `"[]"` when its id was requested but never
returned. -/
theorem missFold_marks : ∀ (ids : List Str) (found : List Str) (r : CondRow),
    r.id ∈ ids → r.id ∉ found →
    ids.foldl (fun r i => missWrite found i r) r =
      { r with positionIds := some emptyArrayStr }
  | [], _, _, h, _ => absurd h (List.not_mem_nil _)
  | i :: rest, found, r, h, hnf => by
    by_cases hi : r.id = i
    · have hstep : missWrite found i r = { r with positionIds := some emptyArrayStr } := by
        simp [missWrite, hi ▸ hnf, hi]
      rw [List.foldl_cons, hstep]
      exact missFold_marked rest found _ rfl
    · have hstep : missWrite found i r = r := by
        by_cases hf : i ∈ found
        · simp [missWrite, hf]
        · simp only [missWrite, if_neg hf]
          rw [if_neg hi]
      rw [List.foldl_cons, hstep]
      have hmem : r.id ∈ rest := by
        rcases List.mem_cons.mp h with he | hm
        · exact absurd he hi
        · exact hm
      exact missFold_marks rest found r hmem hnf

/-- The response-item pass writes the unique non-null item matching the row's
id and nothing else. -/
theorem itemFold_write : ∀ (items : List PnlItem) (r : CondRow) (item : PnlItem) (v : Str),
    item ∈ items → item.id = r.id → item.positionIds = some v →
    (items.map PnlItem.id).Nodup →
    items.foldl (fun r it => itemWrite it r) r = { r with positionIds := some v }
  | [], _, _, _, hm, _, _, _ => absurd hm (List.not_mem_nil _)
  | hd :: rest, r, item, v, hm, hid, hp, hnd => by
    rcases List.mem_cons.mp hm with he | hmem
    · subst he
      have hstep : itemWrite item r = { r with positionIds := some v } := by
        simp [itemWrite, hp, hid.symm]
      rw [List.foldl_cons, hstep]
      apply itemFold_skip
      intro it hit
      right
      intro he2
      have : item.id ∈ rest.map PnlItem.id := by
        rw [hid]
        rw [show r.id = it.id from he2]
        exact List.mem_map_of_mem _ hit
      exact (List.nodup_cons.mp hnd).1 this
    · have hhd : hd.id ≠ r.id := by
        intro he2
        have : r.id ∈ rest.map PnlItem.id := by
          rw [← hid]
          exact List.mem_map_of_mem _ hmem
        exact (List.nodup_cons.mp hnd).1 (he2 ▸ this)
      have hstep : itemWrite hd r = r := by
        cases hp2 : hd.positionIds with
        | none => simp [itemWrite, hp2]
        | some w =>
          simp only [itemWrite, hp2]
          rw [if_neg (fun he2 => hhd (Eq.symm he2))]
      rw [List.foldl_cons, hstep]
      exact itemFold_write rest r item v hmem hid hp (List.nodup_cons.mp hnd).2

/-- C7 counterexample: a Phase-2 response item whose `positionIds` field is
JSON-null is *not* written (the C++ guard skips it) and, having appeared in
the response, is not marked `"[]"` either — so the very same condition id is
selected again by the next iteration, contradicting "for each item returned
in the response the condition row's positionIds is updated … never selected
again". -/
theorem filler_phase2_counterexample :
    selectNullPositionIds [⟨[97], 0, none⟩] 100 = [[97]] ∧
    applyBatch [⟨[97], 0, none⟩] [[97]] [⟨[97], none⟩] = [⟨[97], 0, none⟩] ∧
    selectNullPositionIds (applyBatch [⟨[97], 0, none⟩] [[97]] [⟨[97], none⟩]) 100 =
      [[97]] := by
  decide

/-- C7 amended: each Phase-2 iteration selects at most 100 NULL-positionIds
condition ids ordered by resolutionTimestamp and issues one `id_in` query; the
batch write acts row-wise; a requested id absent from the response is written
`"[]"` (so it is never selected again); a returned item is written only when
its `positionIds` is present and non-null — an item returned with null
`positionIds` leaves its row untouched; and the selection comes back empty
exactly when no NULL-positionIds row remains. -/
theorem filler_phase2_amended :
    (∀ (rows : List CondRow) (ids : List Str) (items : List PnlItem),
      applyBatch rows ids items = rows.map (batchRow ids items)) ∧
    (∀ (ids : List Str) (items : List PnlItem) (r : CondRow),
      r.id ∈ ids → r.id ∉ items.map PnlItem.id →
      batchRow ids items r = { r with positionIds := some emptyArrayStr }) ∧
    (∀ (ids : List Str) (items : List PnlItem) (r : CondRow) (item : PnlItem) (v : Str),
      item ∈ items → item.id = r.id → item.positionIds = some v →
      (items.map PnlItem.id).Nodup →
      batchRow ids items r = { r with positionIds := some v }) ∧
    (∀ (ids : List Str) (items : List PnlItem) (r : CondRow),
      (∀ item ∈ items, item.id = r.id → item.positionIds = none) →
      r.id ∈ items.map PnlItem.id →
      batchRow ids items r = r) ∧
    (∀ (rows : List CondRow) (n : ℕ), 0 < n →
      (selectNullPositionIds rows n = [] ↔ ∀ r ∈ rows, r.positionIds.isNone = false)) := by
  refine ⟨applyBatch_eq_map, ?_, ?_, ?_, ?_⟩
  · intro ids items r hin hnf
    unfold batchRow
    rw [itemFold_skip items r
      (fun it hit => Or.inr (fun he => hnf (he ▸ List.mem_map_of_mem _ hit)))]
    exact missFold_marks ids (items.map PnlItem.id) r hin hnf
  · intro ids items r item v hm hid hp hnd
    unfold batchRow
    rw [itemFold_write items r item v hm hid hp hnd]
    exact missFold_skip ids _ _ (hid ▸ List.mem_map_of_mem _ hm)
  · intro ids items r hnull hfound
    unfold batchRow
    rw [itemFold_skip items r (fun it hit => by
      by_cases he : it.id = r.id
      · exact Or.inl (hnull it hit he)
      · exact Or.inr (fun he2 => he he2.symm))]
    exact missFold_skip ids _ _ hfound
  · intro rows n hn
    constructor
    · intro he r hr
      by_contra hno
      have hrn : r.positionIds.isNone = true := by
        cases hpi : r.positionIds with
        | none => rfl
        | some v => exact absurd (by simp [hpi]) hno
      have hmf : r ∈ rows.filter (fun r => r.positionIds.isNone) :=
        List.mem_filter.mpr ⟨hr, hrn⟩
      have hms : r ∈ List.insertionSort
          (fun a b => a.resolutionTimestamp ≤ b.resolutionTimestamp)
          (rows.filter (fun r => r.positionIds.isNone)) :=
        ((List.perm_insertionSort _ _).mem_iff).mpr hmf
      unfold selectNullPositionIds at he
      rcases List.take_eq_nil_iff.mp (List.map_eq_nil_iff.mp he) with h0 | hsnil
      · omega
      · rw [hsnil] at hms
        exact List.not_mem_nil r hms
    · intro hall
      have hfil : rows.filter (fun r => r.positionIds.isNone) = [] :=
        List.filter_eq_nil_iff.mpr (fun r hr => by simp [hall r hr])
      simp [selectNullPositionIds, hfil]

/-- Witness for the amended C7 theorem: a requested id with an empty response
is marked `"[]"`. -/
theorem filler_phase2_amended_witness :
    batchRow [[97]] [] ⟨[97], 0, none⟩ = ⟨[97], 0, some emptyArrayStr⟩ :=
  filler_phase2_amended.2.1 [[97]] [] ⟨[97], 0, none⟩ (by decide) (by decide)

-- ============================================================================
-- Stats registry (stats_manager.hpp)
-- ============================================================================

/-- `FailureKind` (stats_manager.hpp:29-34). -/
inductive FailureKind
  | network
  | jsonParse
  | graphql
  | format
deriving DecidableEq

/-- The persisted counters of one `(source, entity)` `EntityStat`
(stats_manager.hpp:39-71).  `success_rate` (a C++ `double`) is modelled as an
exact rational; the non-persisted latency ring is outside the claim.  The
`StatsManager` map holds one independent such record per `(source, entity)`
key, and `record_success` / `record_failure` touch only that key's record. -/
structure EntityStat where
  count : ℤ
  total_rows_synced : ℤ
  total_api_time_ms : ℤ
  success_rate : ℚ
  total_requests : ℕ
  success_requests : ℕ
  fail_network : ℕ
  fail_json : ℕ
  fail_graphql : ℕ
  fail_format : ℕ

/-- A freshly created `EntityStat` (the C++ field initialisers). -/
def initStat : EntityStat :=
  { count := 0, total_rows_synced := 0, total_api_time_ms := 0, success_rate := 100,
    total_requests := 0, success_requests := 0,
    fail_network := 0, fail_json := 0, fail_graphql := 0, fail_format := 0 }

/-- `update_after_request` (stats_manager.hpp:223-239): bump `total_requests`,
accumulate API time, and recompute
`success_rate = success_requests / total_requests * 100`. -/
def updateAfterRequest (st : EntityStat) (latency : ℤ) : EntityStat :=
  let st1 := { st with
    total_requests := st.total_requests + 1,
    total_api_time_ms := st.total_api_time_ms + latency }
  { st1 with
    success_rate := (st1.success_requests : ℚ) / (st1.total_requests : ℚ) * 100 }

/-- `record_success` (stats_manager.hpp:156-166). -/
def recordSuccess (st : EntityStat) (records latency : ℤ) : EntityStat :=
  updateAfterRequest
    { st with
      count := st.count + records,
      success_requests := st.success_requests + 1,
      total_rows_synced := st.total_rows_synced + records }
    latency

/-- `record_failure` (stats_manager.hpp:169-182). -/
def recordFailure (st : EntityStat) (kind : FailureKind) (latency : ℤ) : EntityStat :=
  updateAfterRequest
    (match kind with
     | .network => { st with fail_network := st.fail_network + 1 }
     | .jsonParse => { st with fail_json := st.fail_json + 1 }
     | .graphql => { st with fail_graphql := st.fail_graphql + 1 }
     | .format => { st with fail_format := st.fail_format + 1 })
    latency

/-- One recorded request, success or classified failure. -/
inductive StatOp
  | success (records latency : ℤ)
  | failure (kind : FailureKind) (latency : ℤ)

/-- Dispatch one `StatOp` onto a stat record. -/
def applyStatOp (st : EntityStat) : StatOp -> EntityStat
  | .success r l => recordSuccess st r l
  | .failure k l => recordFailure st k l

/-- A sequence of recorded requests applied to a stat record. -/
def applyStatOps (st : EntityStat) (ops : List StatOp) : EntityStat :=
  ops.foldl applyStatOp st

/-- C9: after every `record_success` and every `record_failure` the stat has
`total_requests > 0` and `success_rate = success_requests / total_requests *
100`; consequently every stat reached from a fresh record by any sequence of
recorded requests satisfies the identity whenever `total_requests > 0`. -/
theorem success_rate_identity :
    (∀ (st : EntityStat) (op : StatOp),
      0 < (applyStatOp st op).total_requests ∧
      (applyStatOp st op).success_rate =
        ((applyStatOp st op).success_requests : ℚ) /
          ((applyStatOp st op).total_requests : ℚ) * 100) ∧
    (∀ (ops : List StatOp),
      0 < (applyStatOps initStat ops).total_requests ->
      (applyStatOps initStat ops).success_rate =
        ((applyStatOps initStat ops).success_requests : ℚ) /
          ((applyStatOps initStat ops).total_requests : ℚ) * 100) := by
  have hop : ∀ (st : EntityStat) (op : StatOp),
      0 < (applyStatOp st op).total_requests ∧
      (applyStatOp st op).success_rate =
        ((applyStatOp st op).success_requests : ℚ) /
          ((applyStatOp st op).total_requests : ℚ) * 100 := by
    intro st op
    cases op with
    | success r l =>
      exact ⟨Nat.succ_pos _, rfl⟩
    | failure k l =>
      cases k <;> exact ⟨Nat.succ_pos _, rfl⟩
  refine ⟨hop, ?_⟩
  intro ops
  induction ops using List.reverseRecOn with
  | nil => intro h; exact absurd h (by decide)
  | append_singleton init op ih =>
    intro _
    rw [applyStatOps, List.foldl_append, List.foldl_cons, List.foldl_nil]
    exact (hop (applyStatOps initStat init) op).2

/-- Witness for C9: one successful request starting from a fresh record. -/
theorem success_rate_identity_witness :
    0 < (applyStatOps initStat [StatOp.success 5 7]).total_requests ∧
    (applyStatOps initStat [StatOp.success 5 7]).success_rate =
      ((applyStatOps initStat [StatOp.success 5 7]).success_requests : ℚ) /
        ((applyStatOps initStat [StatOp.success 5 7]).total_requests : ℚ) * 100 :=
  ⟨(success_rate_identity.1 initStat (StatOp.success 5 7)).1,
   success_rate_identity.2 [StatOp.success 5 7]
     (success_rate_identity.1 initStat (StatOp.success 5 7)).1⟩

-- ============================================================================
-- Snapshots and the replay serialiser (rebuilder_types.hpp, replayer.hpp)
-- ============================================================================

/-- `Snapshot` (rebuilder_types.hpp:47-58).  The `u8` fields are modelled as
`ℕ` values below 256; `_pad` is zero and omitted (it reappears in the
persistence layout). -/
structure Snapshot where
  timestamp : ℤ
  delta : ℤ
  price : ℤ
  positions : Fin MAX_OUTCOMES → ℤ
  cost_basis : ℤ
  realized_pnl : ℤ
  event_type : ℕ
  token_idx : ℕ
  outcome_count : ℕ

instance : Inhabited Snapshot :=
  ⟨⟨0, 0, 0, fun _ => 0, 0, 0, 0, 0, 0⟩⟩

instance : DecidableEq Snapshot := fun a b =>
  if h : a.timestamp = b.timestamp ∧ a.delta = b.delta ∧ a.price = b.price ∧
      a.positions = b.positions ∧ a.cost_basis = b.cost_basis ∧
      a.realized_pnl = b.realized_pnl ∧ a.event_type = b.event_type ∧
      a.token_idx = b.token_idx ∧ a.outcome_count = b.outcome_count then
    isTrue (by cases a; cases b; simp_all)
  else
    isFalse (fun he => h (by cases he; exact ⟨rfl, rfl, rfl, rfl, rfl, rfl, rfl, rfl, rfl⟩))

/-- `UserConditionHistory` (rebuilder_types.hpp:64-67). -/
structure UserConditionHistory where
  cond_idx : ℕ
  snapshots : List Snapshot
deriving DecidableEq

/-- `UserState` (rebuilder_types.hpp:72-74). -/
structure UserState where
  conditions : List UserConditionHistory
deriving DecidableEq

/-- `DUST_THRESHOLD = 50 * 1e6` (replayer.hpp:19-24). -/
def DUST_THRESHOLD : ℤ := 50 * 1000000

/-- The per-condition dust sum of `serialize_positions_at`
(replayer.hpp:210-212): sum of `|positions[k]|` for `k < outcome_count`.
(The engine only ever stores `outcome_count ≤ 8`; larger values would index
out of bounds in C++, and the claims below carry that bound.) -/
def absSum (snap : Snapshot) : ℤ :=
  (((List.finRange MAX_OUTCOMES).filter
      (fun k => decide (k.val < snap.outcome_count))).map
    (fun k => |snap.positions k|)).sum

/-- The binary-search loop of `serialize_positions_at` (replayer.hpp:201-206):
`lo`/`hi` bisection for the last index with `timestamp ≤ ts`, carrying the
best index found.  `(lo + hi) >> 1` is an arithmetic shift, i.e. floor
division by two. -/
def bsearchGo (snaps : List Snapshot) (ts : ℤ) (lo hi : ℤ) (best : Option ℕ) : Option ℕ :=
  if h : lo ≤ hi then
    if (snaps.getD (((lo + hi) / 2).toNat) default).timestamp ≤ ts then
      bsearchGo snaps ts ((lo + hi) / 2 + 1) hi (some ((lo + hi) / 2).toNat)
    else
      bsearchGo snaps ts lo ((lo + hi) / 2 - 1) best
  else best
termination_by (hi + 1 - lo).toNat
decreasing_by
  · omega
  · omega

/-- The search over a whole snapshot chain: `lo = 0`, `hi = size - 1`,
`best = -1` (modelled as `none`). -/
def bsearchLast (snaps : List Snapshot) (ts : ℤ) : Option ℕ :=
  bsearchGo snaps ts 0 ((snaps.length : ℤ) - 1) none

/-- Step 1 of `serialize_positions_at` for one condition history
(replayer.hpp:197-215): skip empty chains, binary-search the last snapshot at
or before `ts`, skip when none exists or the dust sum is below threshold. -/
def pickSnap (ts : ℤ) (ch : UserConditionHistory) : Option Snapshot :=
  if ch.snapshots.isEmpty then none
  else
    match bsearchLast ch.snapshots ts with
    | none => none
    | some i =>
      if absSum (ch.snapshots.getD i default) < DUST_THRESHOLD then none
      else some (ch.snapshots.getD i default)

/-- `serialize_positions_at` (replayer.hpp:183-247) reduced to the data it
emits: one `(cond_idx, snapshot)` entry per surviving condition, sorted by
`|realized_pnl|` descending. -/
def positionsAt (state : UserState) (ts : ℤ) : List (ℕ × Snapshot) :=
  List.insertionSort (fun a b => |b.2.realized_pnl| ≤ |a.2.realized_pnl|)
    (state.conditions.filterMap
      (fun ch => (pickSnap ts ch).map (fun s => (ch.cond_idx, s))))

/-- The bisection loop, on a chain sorted by timestamp, returns the last
index whose snapshot is at or before `ts` — `none` when every snapshot is
later.  Stated with the loop invariants over the active window. -/
theorem bsearchGo_spec (snaps : List Snapshot) (ts : ℤ)
    (hsort : List.Sorted (fun a b => a.timestamp ≤ b.timestamp) snaps) :
    ∀ (m : ℕ) (lo hi : ℤ) (best : Option ℕ),
      (hi + 1 - lo).toNat = m →
      0 ≤ lo → lo ≤ hi + 1 → hi ≤ (snaps.length : ℤ) - 1 →
      (∀ (j : ℕ) (hj : j < snaps.length), (j : ℤ) < lo →
        (snaps.get ⟨j, hj⟩).timestamp ≤ ts) →
      (∀ (j : ℕ) (hj : j < snaps.length), hi < (j : ℤ) →
        ts < (snaps.get ⟨j, hj⟩).timestamp) →
      ((lo = 0 ∧ best = none) ∨ (0 < lo ∧ best = some (lo - 1).toNat)) →
      ((bsearchGo snaps ts lo hi best = none ∧
          ∀ (j : ℕ) (hj : j < snaps.length), ts < (snaps.get ⟨j, hj⟩).timestamp) ∨
        (∃ (i : ℕ) (hi2 : i < snaps.length),
          bsearchGo snaps ts lo hi best = some i ∧
          (snaps.get ⟨i, hi2⟩).timestamp ≤ ts ∧
          ∀ (j : ℕ) (hj : j < snaps.length), i < j →
            ts < (snaps.get ⟨j, hj⟩).timestamp)) := by
  intro m
  induction m using Nat.strong_induction_on with
  | _ m ih =>
    intro lo hi best hm h0 hlh hhn hlow hhigh hbest
    rw [bsearchGo]
    split
    · next h =>
      have hmid1 : lo ≤ (lo + hi) / 2 := by omega
      have hmid2 : (lo + hi) / 2 ≤ hi := by omega
      have hmidn : ((lo + hi) / 2).toNat < snaps.length := by omega
      have hgetd : snaps.getD ((lo + hi) / 2).toNat default =
          snaps.get ⟨((lo + hi) / 2).toNat, hmidn⟩ := by
        rw [List.getD_eq_getElem?_getD, List.getElem?_eq_getElem hmidn]
        rfl
      split
      · next hle =>
        rw [hgetd] at hle
        refine ih (hi + 1 - ((lo + hi) / 2 + 1)).toNat (by omega)
          ((lo + hi) / 2 + 1) hi (some ((lo + hi) / 2).toNat) rfl
          (by omega) (by omega) hhn ?_ hhigh ?_
        · intro j hj hjlt
          by_cases hjm : j = ((lo + hi) / 2).toNat
          · subst hjm
            exact hle
          · by_cases hjlo : (j : ℤ) < lo
            · exact hlow j hj hjlo
            · have hjm2 : j < ((lo + hi) / 2).toNat := by omega
              have := List.pairwise_iff_get.mp hsort ⟨j, hj⟩
                ⟨((lo + hi) / 2).toNat, hmidn⟩ hjm2
              exact le_trans this hle
        · right
          exact ⟨by omega, by congr 1; omega⟩
      · next hgt =>
        rw [hgetd] at hgt
        push_neg at hgt
        refine ih (((lo + hi) / 2 - 1) + 1 - lo).toNat (by omega)
          lo ((lo + hi) / 2 - 1) best rfl h0 (by omega) (by omega) hlow ?_ hbest
        intro j hj hjgt
        by_cases hjm : j = ((lo + hi) / 2).toNat
        · subst hjm
          exact hgt
        · have hjm2 : ((lo + hi) / 2).toNat < j := by omega
          have := List.pairwise_iff_get.mp hsort ⟨((lo + hi) / 2).toNat, hmidn⟩
            ⟨j, hj⟩ hjm2
          exact lt_of_lt_of_le hgt this
    · next h =>
      rcases hbest with ⟨hl0, hbn⟩ | ⟨hlpos, hbs⟩
      · subst hbn
        left
        refine ⟨rfl, fun j hj => hhigh j hj (by omega)⟩
      · right
        refine ⟨(lo - 1).toNat, by omega, by rw [hbs], ?_, ?_⟩
        · exact hlow _ _ (by omega)
        · intro j hj hgt2
          exact hhigh j hj (by omega)

/-- `pickSnap` returns exactly the last snapshot at or before `ts`, and only
when that snapshot clears the dust threshold. -/
theorem pickSnap_spec (ts : ℤ) (ch : UserConditionHistory)
    (hsort : List.Sorted (fun a b => a.timestamp ≤ b.timestamp) ch.snapshots)
    (snap : Snapshot) :
    pickSnap ts ch = some snap ↔
      ∃ (i : ℕ) (hi : i < ch.snapshots.length),
        snap = ch.snapshots.get ⟨i, hi⟩ ∧ snap.timestamp ≤ ts ∧
        (∀ (j : ℕ) (hj : j < ch.snapshots.length), i < j →
          ts < (ch.snapshots.get ⟨j, hj⟩).timestamp) ∧
        DUST_THRESHOLD ≤ absSum snap := by
  have hspec := bsearchGo_spec ch.snapshots ts hsort
    (((ch.snapshots.length : ℤ) - 1) + 1 - 0).toNat 0 ((ch.snapshots.length : ℤ) - 1) none
    rfl (by omega) (by omega) (by omega)
    (fun j hj hc => absurd hc (by omega))
    (fun j hj hc => absurd hc (by omega))
    (Or.inl ⟨rfl, rfl⟩)
  constructor
  · intro hp
    unfold pickSnap at hp
    by_cases hemp : ch.snapshots.isEmpty
    · rw [if_pos hemp] at hp
      exact Option.noConfusion hp
    · rw [if_neg hemp] at hp
      rcases hspec with ⟨hnone, _⟩ | ⟨i, hi2, hsome, hle, hafter⟩
      · rw [show bsearchLast ch.snapshots ts = none from hnone] at hp
        exact Option.noConfusion hp
      · rw [show bsearchLast ch.snapshots ts = some i from hsome] at hp
        dsimp only at hp
        have hgd : ch.snapshots.getD i default = ch.snapshots.get ⟨i, hi2⟩ := by
          rw [List.getD_eq_getElem?_getD, List.getElem?_eq_getElem hi2]
          rfl
        rw [hgd] at hp
        by_cases hdust : absSum (ch.snapshots.get ⟨i, hi2⟩) < DUST_THRESHOLD
        · rw [if_pos hdust] at hp
          exact Option.noConfusion hp
        · rw [if_neg hdust] at hp
          have hsnap := (Option.some.inj hp).symm
          exact ⟨i, hi2, hsnap, hsnap ▸ hle, hafter, hsnap ▸ not_lt.mp hdust⟩
  · rintro ⟨i, hi, hsnap, hts, hlast, hdust⟩
    have hne : ¬ ch.snapshots.isEmpty = true := by
      intro hemp
      rw [List.isEmpty_iff] at hemp
      rw [hemp] at hi
      exact absurd hi (by simp)
    unfold pickSnap
    rw [if_neg hne]
    rcases hspec with ⟨_, hall⟩ | ⟨i2, hi22, hsome, hle2, hafter2⟩
    · have := hall i hi
      rw [← hsnap] at this
      omega
    · have hii : i = i2 := by
        by_contra hne2
        rcases Nat.lt_or_ge i i2 with hlt | hge
        · have := hlast i2 hi22 hlt
          omega
        · have hlt2 : i2 < i := by omega
          have := hafter2 i hi hlt2
          rw [← hsnap] at this
          omega
      subst hii
      rw [show bsearchLast ch.snapshots ts = some i from hsome]
      dsimp only
      have hgd : ch.snapshots.getD i default = ch.snapshots.get ⟨i, hi⟩ := by
        rw [List.getD_eq_getElem?_getD, List.getElem?_eq_getElem hi]
        rfl
      rw [hgd, ← hsnap, if_neg (not_lt.mpr hdust)]

/-- C8: a condition appears in the positions-at result exactly through the
last snapshot of its chain with `timestamp ≤ ts`, and only when that
snapshot's absolute-position sum reaches the 50-dollar dust threshold;
conditions with no such snapshot or a sub-threshold sum are omitted.  (The
sortedness hypothesis holds for every chain Phase 3 produces, which emits
snapshots in ascending event-timestamp order.) -/
theorem positions_at_last_snapshot_dust :
    ∀ (state : UserState) (ts : ℤ),
      (∀ ch ∈ state.conditions,
        List.Sorted (fun a b => a.timestamp ≤ b.timestamp) ch.snapshots) →
      ∀ (ci : ℕ) (snap : Snapshot),
        ((ci, snap) ∈ positionsAt state ts ↔
          ∃ ch ∈ state.conditions, ch.cond_idx = ci ∧
            ∃ (i : ℕ) (hi : i < ch.snapshots.length),
              snap = ch.snapshots.get ⟨i, hi⟩ ∧ snap.timestamp ≤ ts ∧
              (∀ (j : ℕ) (hj : j < ch.snapshots.length), i < j →
                ts < (ch.snapshots.get ⟨j, hj⟩).timestamp) ∧
              DUST_THRESHOLD ≤ absSum snap) := by
  intro state ts hsort ci snap
  rw [positionsAt, (List.perm_insertionSort _ _).mem_iff, List.mem_filterMap]
  constructor
  · rintro ⟨ch, hch, hmap⟩
    rcases Option.map_eq_some'.mp hmap with ⟨s, hps, heq⟩
    have hci : ch.cond_idx = ci := congrArg Prod.fst heq
    have hs : s = snap := congrArg Prod.snd heq
    rw [hs] at hps
    exact ⟨ch, hch, hci, (pickSnap_spec ts ch (hsort ch hch) snap).mp hps⟩
  · rintro ⟨ch, hch, hci, hex⟩
    refine ⟨ch, hch, ?_⟩
    rw [(pickSnap_spec ts ch (hsort ch hch) snap).mpr hex]
    subst hci
    rfl

/-- The snapshot used by the C8 witness: timestamp 10, one outcome holding
60 USDC face (over the 50 USDC dust threshold). -/
def c8snap : Snapshot :=
  ⟨10, 0, 0, fun k => if k.val = 0 then 60000000 else 0, 0, 0, 0, 0, 1⟩

/-- The single-condition user state of the C8 witness. -/
def c8state : UserState := ⟨[⟨3, [c8snap]⟩]⟩

/-- Witness for C8 at a one-snapshot state and `ts = 20`. -/
theorem positions_at_last_snapshot_dust_witness :
    (3, c8snap) ∈ positionsAt c8state 20 ↔
      ∃ ch ∈ c8state.conditions, ch.cond_idx = 3 ∧
        ∃ (i : ℕ) (hi : i < ch.snapshots.length),
          c8snap = ch.snapshots.get ⟨i, hi⟩ ∧ c8snap.timestamp ≤ 20 ∧
          (∀ (j : ℕ) (hj : j < ch.snapshots.length), i < j →
            20 < (ch.snapshots.get ⟨j, hj⟩).timestamp) ∧
          DUST_THRESHOLD ≤ absSum c8snap :=
  positions_at_last_snapshot_dust c8state 20
    (by
      intro ch hch
      simp only [c8state, List.mem_singleton] at hch
      subst hch
      exact List.sorted_singleton _)
    3 c8snap

-- ============================================================================
-- Rebuild persistence: byte-level save/load (rebuilder.hpp:122-288)
-- ============================================================================

/-- Little-endian bytes of the low `k` bytes of a natural number (what
`f.write` emits for a `k`-byte unsigned integer). -/
def wbytes : ℕ → ℕ → List ℕ
  | 0, _ => []
  | k + 1, n => n % 256 :: wbytes k (n / 256)

/-- `w32` — C++ casts to `uint32_t`, truncating values at `2^32`. -/
def w32 (n : ℕ) : List ℕ := wbytes 4 n

/-- `w64` of an `int64_t`: eight little-endian bytes of the two's-complement
representation. -/
def w64 (z : ℤ) : List ℕ := wbytes 8 (z % (2 ^ 64)).toNat

/-- One raw byte (`f.write(&v, 1)` of a `uint8_t`). -/
def w8 (n : ℕ) : List ℕ := [n % 256]

/-- `wstr`: `u32` length prefix followed by the raw bytes. -/
def wstr (s : Str) : List ℕ := w32 s.length ++ s

/-- Little-endian read of a `k`-byte unsigned integer; `none` models the
`assert(f.good())` failure on a truncated file. -/
def rbytes : ℕ → List ℕ → Option (ℕ × List ℕ)
  | 0, l => some (0, l)
  | _ + 1, [] => none
  | k + 1, b :: l => (rbytes k l).map (fun p => (b + 256 * p.1, p.2))

/-- `r32` of `load_persist`. -/
def r32 (l : List ℕ) : Option (ℕ × List ℕ) := rbytes 4 l

/-- `r64` of `load_persist`: decode the two's-complement `int64_t`. -/
def r64 (l : List ℕ) : Option (ℤ × List ℕ) :=
  (rbytes 8 l).map (fun p => (if p.1 < 2 ^ 63 then (p.1 : ℤ) else (p.1 : ℤ) - 2 ^ 64, p.2))

/-- A one-byte read. -/
def r8 (l : List ℕ) : Option (ℕ × List ℕ) := rbytes 1 l

/-- Read `k` raw bytes (string payloads, padding). -/
def rchunk : ℕ → List ℕ → Option (List ℕ × List ℕ)
  | 0, l => some ([], l)
  | _ + 1, [] => none
  | k + 1, b :: l => (rchunk k l).map (fun p => (b :: p.1, p.2))

/-- `rstr` of `load_persist`: length prefix then payload. -/
def rstr (l : List ℕ) : Option (Str × List ℕ) :=
  (r32 l).bind (fun p => rchunk p.1 p.2)

/-- Read `k` records with a component reader (the `for` loops of
`load_persist`). -/
def rlist {α : Type} (p : List ℕ → Option (α × List ℕ)) :
    ℕ → List ℕ → Option (List α × List ℕ)
  | 0, l => some ([], l)
  | k + 1, l =>
    (p l).bind (fun a => (rlist p k a.2).map (fun b => (a.1 :: b.1, b.2)))

/-- An `int64_t`-representable integer. -/
def i64Wf (z : ℤ) : Prop := -(2 ^ 63) ≤ z ∧ z < 2 ^ 63

instance (z : ℤ) : Decidable (i64Wf z) :=
  inferInstanceAs (Decidable (-(2 ^ 63) ≤ z ∧ z < 2 ^ 63))

theorem rbytes_wbytes : ∀ (k n : ℕ) (r : List ℕ),
    rbytes k (wbytes k n ++ r) = some (n % 256 ^ k, r)
  | 0, n, r => by simp [wbytes, rbytes, Nat.mod_one]
  | k + 1, n, r => by
    have hstep : n % 256 ^ (k + 1) = n % 256 + 256 * (n / 256 % 256 ^ k) := by
      rw [pow_succ, mul_comm (256 ^ k) 256, Nat.mod_mul]
    rw [show wbytes (k + 1) n ++ r = n % 256 :: (wbytes k (n / 256) ++ r) from rfl,
      show rbytes (k + 1) (n % 256 :: (wbytes k (n / 256) ++ r)) =
        (rbytes k (wbytes k (n / 256) ++ r)).map (fun p => (n % 256 + 256 * p.1, p.2)) from
        rfl,
      rbytes_wbytes k (n / 256) r, hstep]
    rfl

theorem r32_w32 (n : ℕ) (hn : n < 2 ^ 32) (r : List ℕ) :
    r32 (w32 n ++ r) = some (n, r) := by
  unfold r32 w32
  rw [rbytes_wbytes]
  congr 1
  congr 1
  have h2 : (256 : ℕ) ^ 4 = 2 ^ 32 := by norm_num
  rw [h2]
  exact Nat.mod_eq_of_lt hn

theorem r8_w8 (n : ℕ) (hn : n < 256) (r : List ℕ) :
    r8 (w8 n ++ r) = some (n, r) := by
  have hw : w8 n = wbytes 1 n := by simp [w8, wbytes]
  unfold r8
  rw [hw, rbytes_wbytes]
  congr 2
  rw [pow_one]
  exact Nat.mod_eq_of_lt hn

theorem r64_w64 (z : ℤ) (hz : i64Wf z) (r : List ℕ) :
    r64 (w64 z ++ r) = some (z, r) := by
  obtain ⟨hz1, hz2⟩ := hz
  unfold r64 w64
  rw [rbytes_wbytes]
  simp only [Option.map_some']
  have h2 : (256 : ℕ) ^ 8 = 2 ^ 64 := by norm_num
  have hmod : (z % 2 ^ 64).toNat % 256 ^ 8 = (z % 2 ^ 64).toNat := by
    rw [h2]
    omega
  rw [hmod]
  congr 1
  congr 1
  split
  · next hlt => omega
  · next hge => omega

theorem rchunk_append : ∀ (s r : List ℕ), rchunk s.length (s ++ r) = some (s, r)
  | [], r => by simp [rchunk]
  | b :: s, r => by
    rw [show (b :: s : List ℕ) ++ r = b :: (s ++ r) from rfl,
      show rchunk (b :: s).length (b :: (s ++ r)) =
        (rchunk s.length (s ++ r)).map (fun p => (b :: p.1, p.2)) from rfl,
      rchunk_append s r]
    rfl

theorem rstr_wstr (s : Str) (hs : s.length < 2 ^ 32) (r : List ℕ) :
    rstr (wstr s ++ r) = some (s, r) := by
  unfold rstr wstr
  rw [List.append_assoc, r32_w32 s.length hs, Option.some_bind, rchunk_append]

theorem rlist_roundtrip {α : Type} (p : List ℕ → Option (α × List ℕ)) (w : α → List ℕ) :
    ∀ (xs : List α) (r : List ℕ),
      (∀ x ∈ xs, ∀ r2, p (w x ++ r2) = some (x, r2)) →
      rlist p xs.length ((xs.map w).flatten ++ r) = some (xs, r)
  | [], r, _ => by simp [rlist]
  | x :: xs, r, h => by
    simp only [List.map_cons, List.flatten_cons, List.length_cons, rlist, List.append_assoc]
    rw [h x (List.mem_cons_self x xs) _, Option.some_bind,
      rlist_roundtrip p w xs r (fun y hy => h y (List.mem_cons_of_mem x hy))]
    rfl

/-- A `token_map_` entry (`token_id → (cond_idx, outcome_idx)`).  The C++
`unordered_map` is serialised in iteration order; the model keeps the entry
list, which determines the map. -/
structure TokenEntry where
  token_id : Str
  cond_idx : ℕ
  outcome_idx : ℕ
deriving DecidableEq

/-- The observable engine state written by `save_persist` and rebuilt by
`load_persist`: `conditions_`/`cond_ids_` (parallel), `token_map_`,
`users_`/`user_states_` (parallel) and `total_events_`. -/
structure EngineState where
  conditions : List ConditionInfo
  cond_ids : List Str
  token_map : List TokenEntry
  users : List Str
  user_states : List UserState
  total_events : ℤ
deriving DecidableEq

/-- `PERSIST_MAGIC = 0x524C4E50` ("PNLR"). -/
def PERSIST_MAGIC : ℕ := 0x524C4E50

/-- `PERSIST_VERSION = 1`. -/
def PERSIST_VERSION : ℕ := 1

/-- The raw 112-byte `Snapshot` layout (rebuilder_types.hpp:47-58): three
`i64`, eight `i64` positions, two `i64`, three `u8`, five zero pad bytes. -/
def wsnap (s : Snapshot) : List ℕ :=
  w64 s.timestamp ++ w64 s.delta ++ w64 s.price ++
  (((List.finRange MAX_OUTCOMES).map s.positions).map w64).flatten ++
  w64 s.cost_basis ++ w64 s.realized_pnl ++
  w8 s.event_type ++ w8 s.token_idx ++ w8 s.outcome_count ++
  List.replicate 5 0

/-- One condition record of `save_persist` (rebuilder.hpp:149-158). -/
def wcond (p : Str × ConditionInfo) : List ℕ :=
  wstr p.1 ++ w8 p.2.outcome_count ++ w64 p.2.payout_denominator ++
  w32 p.2.payout_numerators.length ++ (p.2.payout_numerators.map w64).flatten

/-- One token-map record of `save_persist` (rebuilder.hpp:161-166). -/
def wtoken (t : TokenEntry) : List ℕ :=
  wstr t.token_id ++ w32 t.cond_idx ++ w8 t.outcome_idx

/-- One per-condition snapshot chain of a user record (rebuilder.hpp:173-178). -/
def whist (h : UserConditionHistory) : List ℕ :=
  w32 h.cond_idx ++ w32 h.snapshots.length ++ (h.snapshots.map wsnap).flatten

/-- One user record of `save_persist` (rebuilder.hpp:169-179). -/
def wuser (p : Str × UserState) : List ℕ :=
  wstr p.1 ++ w32 p.2.conditions.length ++ (p.2.conditions.map whist).flatten

/-- `save_persist` (rebuilder.hpp:129-185) as the byte stream it writes. -/
def savePersist (S : EngineState) : List ℕ :=
  w32 PERSIST_MAGIC ++ w32 PERSIST_VERSION ++
  w32 S.conditions.length ++ w32 S.token_map.length ++ w32 S.users.length ++
  w64 S.total_events ++
  ((S.cond_ids.zip S.conditions).map wcond).flatten ++
  (S.token_map.map wtoken).flatten ++
  ((S.users.zip S.user_states).map wuser).flatten

/-- Read one raw `Snapshot` (the `f.read` of 112 bytes into the struct). -/
def rsnap (l : List ℕ) : Option (Snapshot × List ℕ) :=
  (r64 l).bind fun pts =>
  (r64 pts.2).bind fun pd =>
  (r64 pd.2).bind fun pp =>
  (rlist r64 MAX_OUTCOMES pp.2).bind fun ppos =>
  (r64 ppos.2).bind fun pcb =>
  (r64 pcb.2).bind fun prp =>
  (r8 prp.2).bind fun pet =>
  (r8 pet.2).bind fun pti =>
  (r8 pti.2).bind fun poc =>
  (rchunk 5 poc.2).map fun ppad =>
  ({ timestamp := pts.1, delta := pd.1, price := pp.1,
     positions := fun k => ppos.1.getD k.val 0,
     cost_basis := pcb.1, realized_pnl := prp.1,
     event_type := pet.1, token_idx := pti.1, outcome_count := poc.1 }, ppad.2)

/-- Read one condition record (rebuilder.hpp:223-238). -/
def rcond (l : List ℕ) : Option ((Str × ConditionInfo) × List ℕ) :=
  (rstr l).bind fun pid =>
  (r8 pid.2).bind fun poc =>
  (r64 poc.2).bind fun pd =>
  (r32 pd.2).bind fun pn =>
  (rlist r64 pn.1 pn.2).map fun pnums =>
  ((pid.1, { outcome_count := poc.1, payout_numerators := pnums.1,
             payout_denominator := pd.1 }), pnums.2)

/-- Read one token-map record (rebuilder.hpp:243-249). -/
def rtoken (l : List ℕ) : Option (TokenEntry × List ℕ) :=
  (rstr l).bind fun pid =>
  (r32 pid.2).bind fun pci =>
  (r8 pci.2).map fun pti =>
  ({ token_id := pid.1, cond_idx := pci.1, outcome_idx := pti.1 }, pti.2)

/-- Read one per-condition snapshot chain (rebuilder.hpp:270-276). -/
def rhist (l : List ℕ) : Option (UserConditionHistory × List ℕ) :=
  (r32 l).bind fun pci =>
  (r32 pci.2).bind fun pn =>
  (rlist rsnap pn.1 pn.2).map fun psnaps =>
  ({ cond_idx := pci.1, snapshots := psnaps.1 }, psnaps.2)

/-- Read one user record (rebuilder.hpp:262-278). -/
def ruser (l : List ℕ) : Option ((Str × UserState) × List ℕ) :=
  (rstr l).bind fun pid =>
  (r32 pid.2).bind fun pn =>
  (rlist rhist pn.1 pn.2).map fun phists =>
  ((pid.1, { conditions := phists.1 }), phists.2)

/-- `load_persist` (rebuilder.hpp:187-288) as a parser of the byte stream:
assert magic and version, then read conditions, the token map and the users
with their states.  `none` models an assertion failure. -/
def loadPersist (l : List ℕ) : Option EngineState :=
  (r32 l).bind fun pmagic =>
  if pmagic.1 ≠ PERSIST_MAGIC then none else
  (r32 pmagic.2).bind fun pver =>
  if pver.1 ≠ PERSIST_VERSION then none else
  (r32 pver.2).bind fun pnc =>
  (r32 pnc.2).bind fun pnt =>
  (r32 pnt.2).bind fun pnu =>
  (r64 pnu.2).bind fun pte =>
  (rlist rcond pnc.1 pte.2).bind fun pconds =>
  (rlist rtoken pnt.1 pconds.2).bind fun ptokens =>
  (rlist ruser pnu.1 ptokens.2).map fun pusers =>
  { conditions := pconds.1.map Prod.snd,
    cond_ids := pconds.1.map Prod.fst,
    token_map := ptokens.1,
    users := pusers.1.map Prod.fst,
    user_states := pusers.1.map Prod.snd,
    total_events := pte.1 }

/-- Indexing the table of a `Fin`-indexed map recovers the function. -/
theorem getD_map_finRange (n : ℕ) (f : Fin n → ℤ) (k : Fin n) :
    ((List.finRange n).map f).getD k.val 0 = f k := by
  rw [List.getD_eq_getElem?_getD, List.getElem?_map]
  have hk : k.val < (List.finRange n).length := by simp [k.isLt]
  rw [List.getElem?_eq_getElem hk]
  simp

/-- `rlist` with an explicit count equal to the list length. -/
theorem rlist_roundtrip2 {α : Type} (p : List ℕ → Option (α × List ℕ)) (w : α → List ℕ)
    (k : ℕ) (xs : List α) (hk : k = xs.length) (r : List ℕ)
    (hx : ∀ x ∈ xs, ∀ r2, p (w x ++ r2) = some (x, r2)) :
    rlist p k ((xs.map w).flatten ++ r) = some (xs, r) := by
  subst hk
  exact rlist_roundtrip p w xs r hx

/-- Reading the five pad bytes back. -/
theorem rchunk_pad (r : List ℕ) :
    rchunk 5 (List.replicate 5 0 ++ r) = some (List.replicate 5 0, r) := by
  have h := rchunk_append (List.replicate 5 (0 : ℕ)) r
  simpa using h

/-- All fields of a `Snapshot` fit their on-disk widths. -/
def snapWf (s : Snapshot) : Prop :=
  i64Wf s.timestamp ∧ i64Wf s.delta ∧ i64Wf s.price ∧
  (∀ k : Fin MAX_OUTCOMES, i64Wf (s.positions k)) ∧
  i64Wf s.cost_basis ∧ i64Wf s.realized_pnl ∧
  s.event_type < 256 ∧ s.token_idx < 256 ∧ s.outcome_count < 256

instance (s : Snapshot) : Decidable (snapWf s) :=
  if h : (i64Wf s.timestamp ∧ i64Wf s.delta ∧ i64Wf s.price ∧
      (∀ k ∈ List.finRange MAX_OUTCOMES, i64Wf (s.positions k)) ∧
      i64Wf s.cost_basis ∧ i64Wf s.realized_pnl ∧
      s.event_type < 256 ∧ s.token_idx < 256 ∧ s.outcome_count < 256) then
    isTrue ⟨h.1, h.2.1, h.2.2.1, fun k => h.2.2.2.1 k (List.mem_finRange k), h.2.2.2.2⟩
  else
    isFalse (fun hs => h ⟨hs.1, hs.2.1, hs.2.2.1, fun k _ => hs.2.2.2.1 k, hs.2.2.2.2⟩)

theorem rsnap_wsnap (s : Snapshot) (h : snapWf s) (r : List ℕ) :
    rsnap (wsnap s ++ r) = some (s, r) := by
  obtain ⟨h1, h2, h3, h4, h5, h6, h7, h8, h9⟩ := h
  unfold rsnap wsnap
  simp only [List.append_assoc]
  rw [r64_w64 _ h1, Option.some_bind, r64_w64 _ h2, Option.some_bind,
    r64_w64 _ h3, Option.some_bind,
    rlist_roundtrip2 r64 w64 MAX_OUTCOMES ((List.finRange MAX_OUTCOMES).map s.positions)
      (by simp) _ (fun z hz r2 => by
        rcases List.mem_map.mp hz with ⟨k, _, hzk⟩
        exact r64_w64 z (hzk ▸ h4 k) r2),
    Option.some_bind, r64_w64 _ h5, Option.some_bind, r64_w64 _ h6, Option.some_bind,
    r8_w8 _ h7, Option.some_bind, r8_w8 _ h8, Option.some_bind,
    r8_w8 _ h9, Option.some_bind, rchunk_pad]
  simp only [Option.map_some']
  have hpos : (fun k : Fin MAX_OUTCOMES =>
      ((List.finRange MAX_OUTCOMES).map s.positions).getD k.val 0) = s.positions :=
    funext fun k => getD_map_finRange MAX_OUTCOMES s.positions k
  rw [hpos]

/-- A persistable condition record. -/
def condWf (c : ConditionInfo) : Prop :=
  c.outcome_count < 256 ∧ i64Wf c.payout_denominator ∧
  c.payout_numerators.length < 2 ^ 32 ∧ ∀ z ∈ c.payout_numerators, i64Wf z

instance (c : ConditionInfo) : Decidable (condWf c) :=
  inferInstanceAs (Decidable (_ ∧ _ ∧ _ ∧ _))

/-- A persistable token-map entry. -/
def tokenWf (t : TokenEntry) : Prop :=
  t.token_id.length < 2 ^ 32 ∧ t.cond_idx < 2 ^ 32 ∧ t.outcome_idx < 256

instance (t : TokenEntry) : Decidable (tokenWf t) :=
  inferInstanceAs (Decidable (_ ∧ _ ∧ _))

/-- A persistable snapshot chain. -/
def histWf (h : UserConditionHistory) : Prop :=
  h.cond_idx < 2 ^ 32 ∧ h.snapshots.length < 2 ^ 32 ∧ ∀ s ∈ h.snapshots, snapWf s

instance (h : UserConditionHistory) : Decidable (histWf h) :=
  inferInstanceAs (Decidable (_ ∧ _ ∧ _))

/-- A persistable user state. -/
def userWf (us : UserState) : Prop :=
  us.conditions.length < 2 ^ 32 ∧ ∀ h ∈ us.conditions, histWf h

instance (us : UserState) : Decidable (userWf us) :=
  inferInstanceAs (Decidable (_ ∧ _))

/-- A persistable engine state: parallel arrays of matching length and every
count, string length and `int64` within its on-disk width. -/
def stateWf (S : EngineState) : Prop :=
  S.conditions.length < 2 ^ 32 ∧ S.token_map.length < 2 ^ 32 ∧
  S.users.length < 2 ^ 32 ∧
  S.cond_ids.length = S.conditions.length ∧
  S.user_states.length = S.users.length ∧
  i64Wf S.total_events ∧
  (∀ id ∈ S.cond_ids, id.length < 2 ^ 32) ∧
  (∀ c ∈ S.conditions, condWf c) ∧
  (∀ t ∈ S.token_map, tokenWf t) ∧
  (∀ id ∈ S.users, id.length < 2 ^ 32) ∧
  (∀ us ∈ S.user_states, userWf us)

instance (S : EngineState) : Decidable (stateWf S) :=
  inferInstanceAs (Decidable (_ ∧ _ ∧ _ ∧ _ ∧ _ ∧ _ ∧ _ ∧ _ ∧ _ ∧ _ ∧ _))

theorem rcond_wcond (p : Str × ConditionInfo) (hid : p.1.length < 2 ^ 32)
    (h : condWf p.2) (r : List ℕ) : rcond (wcond p ++ r) = some (p, r) := by
  obtain ⟨h1, h2, h3, h4⟩ := h
  unfold rcond wcond
  simp only [List.append_assoc]
  rw [rstr_wstr _ hid, Option.some_bind, r8_w8 _ h1, Option.some_bind,
    r64_w64 _ h2, Option.some_bind, r32_w32 _ h3, Option.some_bind,
    rlist_roundtrip2 r64 w64 _ _ rfl _ (fun z hz r2 => r64_w64 z (h4 z hz) r2)]
  rfl

theorem rtoken_wtoken (t : TokenEntry) (h : tokenWf t) (r : List ℕ) :
    rtoken (wtoken t ++ r) = some (t, r) := by
  obtain ⟨h1, h2, h3⟩ := h
  unfold rtoken wtoken
  simp only [List.append_assoc]
  rw [rstr_wstr _ h1, Option.some_bind, r32_w32 _ h2, Option.some_bind, r8_w8 _ h3]
  rfl

theorem rhist_whist (h : UserConditionHistory) (hw : histWf h) (r : List ℕ) :
    rhist (whist h ++ r) = some (h, r) := by
  obtain ⟨h1, h2, h3⟩ := hw
  unfold rhist whist
  simp only [List.append_assoc]
  rw [r32_w32 _ h1, Option.some_bind, r32_w32 _ h2, Option.some_bind,
    rlist_roundtrip2 rsnap wsnap _ _ rfl _ (fun sn hsn r2 => rsnap_wsnap sn (h3 sn hsn) r2)]
  rfl

theorem ruser_wuser (p : Str × UserState) (hid : p.1.length < 2 ^ 32)
    (h : userWf p.2) (r : List ℕ) : ruser (wuser p ++ r) = some (p, r) := by
  obtain ⟨h1, h2⟩ := h
  unfold ruser wuser
  simp only [List.append_assoc]
  rw [rstr_wstr _ hid, Option.some_bind, r32_w32 _ h1, Option.some_bind,
    rlist_roundtrip2 rhist whist _ _ rfl _ (fun hh hhm r2 => rhist_whist hh (h2 hh hhm) r2)]
  rfl

/-- C3: `load_persist` after `save_persist` restores the engine state exactly
on the observable fields (`users`, `user_states`, `conditions`, `cond_ids`,
`token_map`, `total_events`), for every persistable state. -/
theorem load_persist_save_persist_roundtrip (S : EngineState) (h : stateWf S) :
    loadPersist (savePersist S) = some S := by
  obtain ⟨hnc, hnt, hnu, hlc, hlu, hte, hci, hc, ht, hui, hus⟩ := h
  unfold loadPersist savePersist
  simp only [List.append_assoc]
  rw [r32_w32 PERSIST_MAGIC (by norm_num [PERSIST_MAGIC]), Option.some_bind,
    if_neg (fun hne => hne rfl),
    r32_w32 PERSIST_VERSION (by norm_num [PERSIST_VERSION]), Option.some_bind,
    if_neg (fun hne => hne rfl),
    r32_w32 _ hnc, Option.some_bind, r32_w32 _ hnt, Option.some_bind,
    r32_w32 _ hnu, Option.some_bind, r64_w64 _ hte, Option.some_bind,
    rlist_roundtrip2 rcond wcond S.conditions.length (S.cond_ids.zip S.conditions)
      (by rw [List.length_zip, hlc, min_self]) _
      (fun pr hpr r2 =>
        rcond_wcond pr (hci pr.1 (List.of_mem_zip hpr).1)
          (hc pr.2 (List.of_mem_zip hpr).2) r2),
    Option.some_bind,
    rlist_roundtrip2 rtoken wtoken S.token_map.length S.token_map rfl _
      (fun t htm r2 => rtoken_wtoken t (ht t htm) r2),
    Option.some_bind]
  dsimp only
  rw [show ((S.users.zip S.user_states).map wuser).flatten =
      ((S.users.zip S.user_states).map wuser).flatten ++ [] from (List.append_nil _).symm]
  rw [rlist_roundtrip2 ruser wuser S.users.length (S.users.zip S.user_states)
      (by rw [List.length_zip, hlu, min_self]) _
      (fun pr hpr r2 =>
        ruser_wuser pr (hui pr.1 (List.of_mem_zip hpr).1)
          (hus pr.2 (List.of_mem_zip hpr).2) r2)]
  simp only [Option.map_some']
  rw [List.map_fst_zip S.cond_ids S.conditions (le_of_eq hlc),
    List.map_snd_zip S.cond_ids S.conditions (le_of_eq hlc.symm),
    List.map_fst_zip S.users S.user_states (le_of_eq hlu.symm),
    List.map_snd_zip S.users S.user_states (le_of_eq hlu)]

/-- The engine state used by the C3 witness: one condition, one token, one
user holding one single-snapshot history. -/
def c3state : EngineState :=
  { conditions := [⟨2, [1, 0], 1⟩],
    cond_ids := [[99]],
    token_map := [⟨[116], 0, 1⟩],
    users := [[117]],
    user_states := [⟨[⟨0, [c8snap]⟩]⟩],
    total_events := 2 }

/-- Witness for C3: the round trip at a concrete persistable state. -/
theorem load_persist_save_persist_roundtrip_witness :
    loadPersist (savePersist c3state) = some c3state :=
  load_persist_save_persist_roundtrip c3state (by decide)

-- ============================================================================
-- Rebuild pipeline: Phase 1 metadata, Phase 2 scans, Phase 3 replay
-- (rebuilder.hpp:341-719)
-- ============================================================================

/-- A `condition` table row as `load_metadata` reads it.  `none` models a SQL
NULL (or the empty/`"NULL"` strings the code skips); `positionIds` and
`payoutNumerators` arrive as parsed JSON arrays. -/
structure MetaCondRow where
  id : Str
  outcomeSlotCount : ℤ
  positionIds : Option (List Str)
  payoutNumerators : Option (List ℤ)
  payoutDenominator : Option ℤ
deriving DecidableEq

/-- `token_map_[key] = (ci, j)` on the entry-list model of the hash map:
overwrite an existing key, otherwise append. -/
def tmInsert (tm : List TokenEntry) (key : Str) (ci j : ℕ) : List TokenEntry :=
  if tm.any (fun t => t.token_id == key) then
    tm.map (fun t => if t.token_id = key then ⟨key, ci, j⟩ else t)
  else tm ++ [⟨key, ci, j⟩]

/-- `token_map_.find` on the entry list. -/
def tmLookup (tm : List TokenEntry) (key : Str) : Option (ℕ × ℕ) :=
  (tm.find? (fun t => t.token_id == key)).map (fun t => (t.cond_idx, t.outcome_idx))

/-- Assoc-map upsert for `cond_map_`. -/
def amInsert (m : List (Str × ℕ)) (key : Str) (v : ℕ) : List (Str × ℕ) :=
  if m.any (fun p => p.1 == key) then
    m.map (fun p => if p.1 = key then (key, v) else p)
  else m ++ [(key, v)]

/-- `cond_map_.find` on the entry list. -/
def amLookup (m : List (Str × ℕ)) (key : Str) : Option ℕ :=
  (m.find? (fun p => p.1 == key)).map Prod.snd

/-- The `positionIds` loop of Phase 1 (rebuilder.hpp:377-384): the loop
counter is a `uint8_t` bounded by `(uint8_t)arr.size()`, i.e. the array
length *mod 256*; index `j` maps `arr[j] ↦ (idx, j)`. -/
def insertPositionIds (tm : List TokenEntry) (idx : ℕ) (arr : List Str) : List TokenEntry :=
  (List.range (arr.length % 256)).foldl
    (fun tm j => tmInsert tm (arr.getD j []) idx j) tm

/-- Phase-1 engine fields. -/
structure Phase1State where
  conditions : List ConditionInfo
  cond_ids : List Str
  cond_map : List (Str × ℕ)
  token_map : List TokenEntry
deriving DecidableEq

/-- One row of `load_metadata` (rebuilder.hpp:367-404): assert
`0 < outcomeSlotCount ≤ 8` (abort = `none`), assign the next `cond_idx`,
record the positionIds tokens and the payout data. -/
def loadMetadataRow (st : Phase1State) (row : MetaCondRow) : Option Phase1State :=
  if 0 < row.outcomeSlotCount ∧ row.outcomeSlotCount ≤ (MAX_OUTCOMES : ℤ) then
    some
      { conditions := st.conditions ++
          [{ outcome_count := row.outcomeSlotCount.toNat,
             payout_numerators := row.payoutNumerators.getD [],
             payout_denominator := row.payoutDenominator.getD 0 }],
        cond_ids := st.cond_ids ++ [row.id],
        cond_map := amInsert st.cond_map row.id st.conditions.length,
        token_map :=
          match row.positionIds with
          | some arr => insertPositionIds st.token_map st.conditions.length arr
          | none => st.token_map }
  else none

/-- `load_metadata` (rebuilder.hpp:341-409) over the scanned rows. -/
def loadMetadata (rows : List MetaCondRow) : Option Phase1State :=
  rows.foldlM loadMetadataRow ⟨[], [], [], []⟩

/-- An `enriched_order_filled` row as `scan_eof_chunked` reads it.
`price1e6` carries `(int64_t)(price * 1e6)` — the floating-point scaling is
folded into the input, floats being outside the embedding. -/
structure EofRow where
  timestamp : ℤ
  maker : Str
  taker : Str
  market : Str
  side : Str
  size : ℤ
  price1e6 : ℤ
deriving DecidableEq

/-- A `split`/`merge` row. -/
structure SplitRow where
  timestamp : ℤ
  stakeholder : Str
  condition : Str
  amount : ℤ
deriving DecidableEq

/-- A `redemption` row. -/
structure RedemptionRow where
  timestamp : ℤ
  redeemer : Str
  condition : Str
  payout : ℤ
deriving DecidableEq

/-- Per-row emission of `scan_eof_chunked` (rebuilder.hpp:506-524): skip
unmapped markets; otherwise emit a taker event and a maker event of opposite
sides (side letter `'B'` = byte 66 means the taker buys). -/
def eofEvents (tm : List TokenEntry) (row : EofRow) : List (Str × RawEvent) :=
  match tmLookup tm row.market with
  | none => []
  | some (ci, ti) =>
    let isBuy := row.side.headD 0 = 66
    [(row.taker, ⟨row.timestamp, ci, if isBuy then .buy else .sell, ti, row.size, row.price1e6⟩),
     (row.maker, ⟨row.timestamp, ci, if isBuy then .sell else .buy, ti, row.size, row.price1e6⟩)]

/-- Per-row emission of `scan_split_chunked` (rebuilder.hpp:549-557). -/
def splitEvents (cm : List (Str × ℕ)) (row : SplitRow) : List (Str × RawEvent) :=
  match amLookup cm row.condition with
  | none => []
  | some ci => [(row.stakeholder, ⟨row.timestamp, ci, .split, 255, row.amount, 0⟩)]

/-- Per-row emission of `scan_merge_chunked` (rebuilder.hpp:583-591). -/
def mergeEvents (cm : List (Str × ℕ)) (row : SplitRow) : List (Str × RawEvent) :=
  match amLookup cm row.condition with
  | none => []
  | some ci => [(row.stakeholder, ⟨row.timestamp, ci, .merge, 255, row.amount, 0⟩)]

/-- Per-row emission of `scan_redemption_chunked` (rebuilder.hpp:617-625). -/
def redemptionEvents (cm : List (Str × ℕ)) (row : RedemptionRow) : List (Str × RawEvent) :=
  match amLookup cm row.condition with
  | none => []
  | some ci => [(row.redeemer, ⟨row.timestamp, ci, .redemption, 255, row.payout, 0⟩)]

/-- Merge of the four scans (rebuilder.hpp:459-474): eof first, then split,
merge, redemption, each scan's emissions in row order. -/
def collectAllEvents (p1 : Phase1State) (eofRows : List EofRow)
    (splitRows mergeRows : List SplitRow) (redRows : List RedemptionRow) :
    List (Str × RawEvent) :=
  eofRows.flatMap (eofEvents p1.token_map) ++
  splitRows.flatMap (splitEvents p1.cond_map) ++
  mergeRows.flatMap (mergeEvents p1.cond_map) ++
  redRows.flatMap (redemptionEvents p1.cond_map)

/-- Bucket the merged stream per user (`intern_user` + per-user append;
rebuilder.hpp:414-430, 460-474).  Users appear in first-occurrence order —
the model's deterministic stand-in for the hash-map iteration order. -/
def bucketEvents (evts : List (Str × RawEvent)) : List (Str × List RawEvent) :=
  evts.foldl
    (fun acc ue =>
      if acc.any (fun p => p.1 == ue.1) then
        acc.map (fun p => if p.1 = ue.1 then (p.1, p.2 ++ [ue.2]) else p)
      else acc ++ [(ue.1, [ue.2])])
    []

/-- The Phase-3 per-user sort (rebuilder.hpp:671-674): order by timestamp
only.  `std::sort` is unstable — equal-timestamp events keep an unspecified
order; a stable sort of the delivered order is one conforming refinement. -/
def sortEvents (evts : List RawEvent) : List RawEvent :=
  List.insertionSort (fun a b => a.timestamp ≤ b.timestamp) evts

/-- `Snapshot.cost_basis`: the post-event cost sum over the live outcomes,
rescaled to raw USDC (rebuilder.hpp:694-697). -/
def costBasis (cond : ConditionInfo) (st : ReplayState) : ℤ :=
  ((((List.finRange MAX_OUTCOMES).filter
      (fun k => decide (k.val < cond.outcome_count))).map st.cost).sum).tdiv 1000000

/-- One event of the Phase-3 walk (rebuilder.hpp:680-706): fetch the
per-condition state (zero on first touch), apply the event, record a
snapshot.  Both per-condition maps are entry lists in first-occurrence
order. -/
def replayStep (conds : List ConditionInfo)
    (acc : List (ℕ × ReplayState) × List (ℕ × List Snapshot)) (evt : RawEvent) :
    Option (List (ℕ × ReplayState) × List (ℕ × List Snapshot)) :=
  match conds[evt.cond_idx]? with
  | none => none
  | some cond =>
    let st := ((acc.1.find? (fun p => p.1 == evt.cond_idx)).map Prod.snd).getD replayZero
    (applyEvent cond evt st).map fun st2 =>
      let snap : Snapshot :=
        { timestamp := evt.timestamp, delta := evt.amount, price := evt.price,
          positions := st2.positions,
          cost_basis := costBasis cond st2,
          realized_pnl := st2.realized_pnl,
          event_type := evt.type.code, token_idx := evt.token_idx,
          outcome_count := cond.outcome_count }
      (if acc.1.any (fun p => p.1 == evt.cond_idx) then
         acc.1.map (fun p => if p.1 = evt.cond_idx then (p.1, st2) else p)
       else acc.1 ++ [(evt.cond_idx, st2)],
       if acc.2.any (fun p => p.1 == evt.cond_idx) then
         acc.2.map (fun p => if p.1 = evt.cond_idx then (p.1, p.2 ++ [snap]) else p)
       else acc.2 ++ [(evt.cond_idx, [snap])])

/-- `replay_user` (rebuilder.hpp:667-719): sort, walk, then move the
per-condition snapshot vectors into `UserConditionHistory` entries. -/
def replayUser (conds : List ConditionInfo) (events : List RawEvent) :
    Option (List UserConditionHistory) :=
  ((sortEvents events).foldlM (replayStep conds) ([], [])).map
    (fun acc => acc.2.map (fun p => UserConditionHistory.mk p.1 p.2))

/-- The five input tables of a rebuild. -/
structure Corpus where
  condRows : List MetaCondRow
  eofRows : List EofRow
  splitRows : List SplitRow
  mergeRows : List SplitRow
  redemptionRows : List RedemptionRow
deriving DecidableEq

/-- `rebuild_all` (rebuilder.hpp:84-117) down to the observable engine state:
Phase 1 metadata, Phase 2 collection and bucketing, Phase 3 replay.  `none`
models an assertion failure. -/
def rebuildEngine (c : Corpus) : Option EngineState :=
  (loadMetadata c.condRows).bind fun p1 =>
  (bucketEvents (collectAllEvents p1 c.eofRows c.splitRows c.mergeRows
      c.redemptionRows)).foldlM
    (fun acc p => (replayUser p1.conditions p.2).map
      (fun hists => acc ++ [(p.1, UserState.mk hists)]))
    [] |>.map fun userPairs =>
  { conditions := p1.conditions, cond_ids := p1.cond_ids,
    token_map := p1.token_map,
    users := userPairs.map Prod.fst,
    user_states := userPairs.map Prod.snd,
    total_events := ((collectAllEvents p1 c.eofRows c.splitRows c.mergeRows
      c.redemptionRows).length : ℤ) }

/-- A full rebuild followed by `save_persist`: the bytes of `rebuild.bin`. -/
def rebuildBytes (c : Corpus) : Option (List ℕ) :=
  (rebuildEngine c).map savePersist

/-- The single-condition row of the C6 counterexample (one outcome, one
token id `[5]`). -/
def c6condRow : MetaCondRow := ⟨[1], 1, some [[5]], none, none⟩

/-- Order fill at timestamp 7, taker `[3]` buys from maker `[2]` at 0.50. -/
def c6rowA : EofRow := ⟨7, [2], [3], [5], [66], 1000000, 500000⟩

/-- Order fill at the same timestamp 7, taker `[3]` sells to maker `[2]` at
0.60. -/
def c6rowB : EofRow := ⟨7, [2], [3], [5], [83], 1000000, 600000⟩

/-- The two C6 corpora: identical table contents, the two equal-timestamp
order fills delivered in the two orders `ORDER BY timestamp` allows. -/
def c6corpus1 : Corpus := ⟨[c6condRow], [c6rowA, c6rowB], [], [], []⟩

/-- The same corpus with the tied rows swapped. -/
def c6corpus2 : Corpus := ⟨[c6condRow], [c6rowB, c6rowA], [], [], []⟩

set_option maxRecDepth 40000 in
/-- C6 counterexample: the two corpora hold the same rows (the
`enriched_order_filled` lists are permutations, the other tables equal) and
both row orders are sorted by timestamp — both are legal results of the
scan's `ORDER BY timestamp` — yet the two rebuilds produce different
`rebuild.bin` bytes: with `positions[0] = 0`, Sell-then-Buy no-ops the sell
while Buy-then-Sell realizes PnL, so the snapshot chains differ. -/
theorem rebuild_determinism_counterexample :
    c6corpus1.eofRows.Perm c6corpus2.eofRows ∧
    c6corpus1.condRows = c6corpus2.condRows ∧
    c6corpus1.splitRows = c6corpus2.splitRows ∧
    c6corpus1.mergeRows = c6corpus2.mergeRows ∧
    c6corpus1.redemptionRows = c6corpus2.redemptionRows ∧
    List.Chain' (fun a b => a.timestamp ≤ b.timestamp) c6corpus1.eofRows ∧
    List.Chain' (fun a b => a.timestamp ≤ b.timestamp) c6corpus2.eofRows ∧
    rebuildBytes c6corpus1 ≠ rebuildBytes c6corpus2 := by
  refine ⟨by decide, rfl, rfl, rfl, rfl, ?_, ?_, by decide⟩
  · exact List.chain'_cons.mpr ⟨by decide, List.chain'_singleton _⟩
  · exact List.chain'_cons.mpr ⟨by decide, List.chain'_singleton _⟩

/-- Two timestamp-sorted lists that are permutations of each other with
pairwise-distinct timestamps are equal. -/
theorem eq_of_perm_sorted_nodup_ts : ∀ (l1 l2 : List RawEvent),
    l1.Perm l2 →
    List.Sorted (fun a b => a.timestamp ≤ b.timestamp) l1 →
    List.Sorted (fun a b => a.timestamp ≤ b.timestamp) l2 →
    (l1.map RawEvent.timestamp).Nodup →
    l1 = l2
  | [], l2, hp, _, _, _ => (List.Perm.nil_eq hp)
  | a :: l1, [], hp, _, _, _ => absurd (hp.symm.nil_eq) (by simp)
  | a :: l1, b :: l2, hp, hs1, hs2, hnd => by
    have hab : a = b := by
      by_contra hne
      have hmem : a ∈ b :: l2 := hp.mem_iff.mp (List.mem_cons_self a l1)
      have ha2 : a ∈ l2 := by
        rcases List.mem_cons.mp hmem with he | hm
        · exact absurd he hne
        · exact hm
      have hmb : b ∈ a :: l1 := hp.symm.mem_iff.mp (List.mem_cons_self b l2)
      have hb1 : b ∈ l1 := by
        rcases List.mem_cons.mp hmb with he | hm
        · exact absurd he.symm hne
        · exact hm
      have h1 : a.timestamp ≤ b.timestamp := (List.sorted_cons.mp hs1).1 b hb1
      have h2 : b.timestamp ≤ a.timestamp := (List.sorted_cons.mp hs2).1 a ha2
      have heq : b.timestamp = a.timestamp := le_antisymm h2 h1
      have : a.timestamp ∈ l1.map RawEvent.timestamp := by
        rw [← heq]
        exact List.mem_map_of_mem _ hb1
      exact (List.nodup_cons.mp (by simpa using hnd)).1 this
    subst hab
    have hp2 : l1.Perm l2 := hp.cons_inv
    have := eq_of_perm_sorted_nodup_ts l1 l2 hp2 (List.sorted_cons.mp hs1).2
      (List.sorted_cons.mp hs2).2 (List.nodup_cons.mp (by simpa using hnd)).2
    rw [this]

instance : IsTotal RawEvent (fun a b => a.timestamp ≤ b.timestamp) :=
  ⟨fun a b => le_total a.timestamp b.timestamp⟩

instance : IsTrans RawEvent (fun a b => a.timestamp ≤ b.timestamp) :=
  ⟨fun _ _ _ hab hbc => le_trans hab hbc⟩

/-- C6 amended: the per-user replay result is a function of the delivered
event order only through the sort — when a user's events carry pairwise
distinct timestamps, any two delivered orders of the same events replay to
the same snapshot chains (and hence to identical bytes); with equal-timestamp
ties the ordering the store happens to deliver can change the chains, as the
counterexample shows. -/
theorem rebuild_determinism_amended :
    ∀ (conds : List ConditionInfo) (l1 l2 : List RawEvent),
      l1.Perm l2 → (l1.map RawEvent.timestamp).Nodup →
      replayUser conds l1 = replayUser conds l2 := by
  intro conds l1 l2 hp hnd
  have hsortperm : (sortEvents l1).Perm (sortEvents l2) :=
    ((List.perm_insertionSort _ l1).trans hp).trans (List.perm_insertionSort _ l2).symm
  have hnd1 : ((sortEvents l1).map RawEvent.timestamp).Nodup :=
    (((List.perm_insertionSort _ l1).map RawEvent.timestamp).nodup_iff).mpr hnd
  have hsorteq : sortEvents l1 = sortEvents l2 :=
    eq_of_perm_sorted_nodup_ts (sortEvents l1) (sortEvents l2) hsortperm
      (List.sorted_insertionSort _ l1) (List.sorted_insertionSort _ l2) hnd1
  unfold replayUser
  rw [hsorteq]

/-- Witness for the amended C6 theorem: two orders of two distinct-timestamp
events replay identically. -/
theorem rebuild_determinism_amended_witness :
    replayUser [cond2]
      [⟨1, 0, .buy, 0, 1000000, 400000⟩, ⟨2, 0, .sell, 0, 1000000, 600000⟩] =
    replayUser [cond2]
      [⟨2, 0, .sell, 0, 1000000, 600000⟩, ⟨1, 0, .buy, 0, 1000000, 400000⟩] :=
  rebuild_determinism_amended [cond2]
    [⟨1, 0, .buy, 0, 1000000, 400000⟩, ⟨2, 0, .sell, 0, 1000000, 600000⟩]
    [⟨2, 0, .sell, 0, 1000000, 600000⟩, ⟨1, 0, .buy, 0, 1000000, 400000⟩]
    (by decide) (by decide)

set_option maxRecDepth 20000 in
/-- C10 counterexample: the Phase-1 token loop bound is `(uint8_t)arr.size()`,
so a 256-element `positionIds` array inserts *zero* token-map entries — not
one per element; and nothing checks the array length against
`outcome_count` or `MAX_OUTCOMES`: a 9-element array stores `outcome_idx = 8`,
on which `apply_buy`'s `assert(i < MAX_OUTCOMES)` fails. -/
theorem token_map_truncation_counterexample :
    (loadMetadata [MetaCondRow.mk [1] 1 (some (List.replicate 256 [9])) none none]).map
        Phase1State.token_map = some [] ∧
    (loadMetadata [MetaCondRow.mk [1] 2
        (some [[0], [1], [2], [3], [4], [5], [6], [7], [8]]) none none]).map
        Phase1State.token_map =
      some [⟨[0], 0, 0⟩, ⟨[1], 0, 1⟩, ⟨[2], 0, 2⟩, ⟨[3], 0, 3⟩, ⟨[4], 0, 4⟩,
            ⟨[5], 0, 5⟩, ⟨[6], 0, 6⟩, ⟨[7], 0, 7⟩, ⟨[8], 0, 8⟩] ∧
    applyBuy 8 1000000 500000 replayZero = none := by
  refine ⟨by decide, by decide, by decide⟩

/-- Every entry produced by a `tmInsert` is either the new binding or one of
the old entries. -/
theorem mem_tmInsert {tm : List TokenEntry} {key : Str} {ci j : ℕ} :
    ∀ t ∈ tmInsert tm key ci j, t = ⟨key, ci, j⟩ ∨ t ∈ tm := by
  intro t ht
  unfold tmInsert at ht
  split at ht
  · rcases List.mem_map.mp ht with ⟨t0, ht0, heq⟩
    by_cases hk : t0.token_id = key
    · rw [if_pos hk] at heq
      exact Or.inl heq.symm
    · rw [if_neg hk] at heq
      exact Or.inr (heq ▸ ht0)
  · rcases List.mem_append.mp ht with hm | hm
    · exact Or.inr hm
    · exact Or.inl (List.mem_singleton.mp hm)

/-- Folding `tmInsert` over small indices keeps every `outcome_idx` small. -/
theorem foldl_tmInsert_bound (idx : ℕ) (arr : List Str) :
    ∀ (js : List ℕ) (tm : List TokenEntry),
      (∀ t ∈ tm, t.outcome_idx < MAX_OUTCOMES) →
      (∀ j ∈ js, j < MAX_OUTCOMES) →
      ∀ t ∈ js.foldl (fun tm j => tmInsert tm (arr.getD j []) idx j) tm,
        t.outcome_idx < MAX_OUTCOMES
  | [], tm, htm, _ => htm
  | j :: js, tm, htm, hjs => by
    intro t ht
    rw [List.foldl_cons] at ht
    refine foldl_tmInsert_bound idx arr js _ ?_
      (fun x hx => hjs x (List.mem_cons_of_mem _ hx)) t ht
    intro t2 ht2
    rcases mem_tmInsert t2 ht2 with he | hm
    · rw [he]
      exact hjs j (List.mem_cons_self j js)
    · exact htm t2 hm

/-- `insertPositionIds` keeps every `outcome_idx` below 8 when the array has
at most 8 elements. -/
theorem insertPositionIds_bound {tm : List TokenEntry} {idx : ℕ} {arr : List Str}
    (harr : arr.length ≤ MAX_OUTCOMES)
    (h : ∀ t ∈ tm, t.outcome_idx < MAX_OUTCOMES) :
    ∀ t ∈ insertPositionIds tm idx arr, t.outcome_idx < MAX_OUTCOMES := by
  unfold insertPositionIds
  refine foldl_tmInsert_bound idx arr _ tm h ?_
  intro j hj
  have h1 := List.mem_range.mp hj
  have h2 : arr.length % 256 ≤ arr.length := Nat.mod_le _ _
  omega

/-- Every token-map entry Phase 1 builds from bounded rows has
`outcome_idx < 8`. -/
theorem loadMetadata_token_bound : ∀ (rows : List MetaCondRow) (st p1 : Phase1State),
    (∀ t ∈ st.token_map, t.outcome_idx < MAX_OUTCOMES) →
    (∀ row ∈ rows, ∀ arr, row.positionIds = some arr → arr.length ≤ MAX_OUTCOMES) →
    List.foldlM loadMetadataRow st rows = some p1 →
    ∀ t ∈ p1.token_map, t.outcome_idx < MAX_OUTCOMES
  | [], st, p1, hst, _, hfold => by
    have : st = p1 := by simpa [List.foldlM] using hfold
    exact this ▸ hst
  | row :: rows, st, p1, hst, hrows, hfold => by
    rw [List.foldlM_cons] at hfold
    cases hrow : loadMetadataRow st row with
    | none =>
      rw [hrow] at hfold
      exact Option.noConfusion hfold
    | some st2 =>
      rw [hrow] at hfold
      have hfold2 : List.foldlM loadMetadataRow st2 rows = some p1 := hfold
      refine loadMetadata_token_bound rows st2 p1 ?_
        (fun r hr => hrows r (List.mem_cons_of_mem _ hr)) hfold2
      unfold loadMetadataRow at hrow
      split at hrow
      · cases hrow
        cases hpi : row.positionIds with
        | none => simpa [hpi] using hst
        | some arr =>
          simp only [hpi]
          exact insertPositionIds_bound
            (hrows row (List.mem_cons_self row rows) arr hpi) hst
      · exact Option.noConfusion hrow

/-- C10 amended: Phase 1 inserts one token-map entry for every element of a
condition's `positionIds` array *when the array has fewer than 256 elements*
(the loop counter is a `uint8_t`, so longer arrays only insert
`len mod 256` entries), still with no check against `outcome_count` or
`MAX_OUTCOMES`.  For every input whose `positionIds` arrays have at most 8
elements, every stored `outcome_idx` — hence every Buy/Sell `token_idx`
emitted by the order-fill scan — is below 8, and the index accesses of
`apply_buy`/`apply_sell` are in bounds (the assertion cannot fail); an input
with a longer array defeats the bound, as the counterexample's 9-element
array shows. -/
theorem token_bound_amended :
    ∀ (rows : List MetaCondRow) (p1 : Phase1State),
      (∀ row ∈ rows, ∀ arr, row.positionIds = some arr → arr.length ≤ MAX_OUTCOMES) →
      loadMetadata rows = some p1 →
      (∀ t ∈ p1.token_map, t.outcome_idx < MAX_OUTCOMES) ∧
      (∀ (row : EofRow) (u : Str) (e : RawEvent),
        (u, e) ∈ eofEvents p1.token_map row →
        e.token_idx < MAX_OUTCOMES ∧
        (∀ st : ReplayState,
          applyBuy e.token_idx e.amount e.price st ≠ none ∧
          applySell e.token_idx e.amount e.price st ≠ none)) := by
  intro rows p1 hrows hload
  have hbound := loadMetadata_token_bound rows ⟨[], [], [], []⟩ p1
    (by intro t ht; exact absurd ht (List.not_mem_nil t)) hrows hload
  refine ⟨hbound, ?_⟩
  intro row u e hmem
  unfold eofEvents at hmem
  cases hlk : tmLookup p1.token_map row.market with
  | none =>
    rw [hlk] at hmem
    exact absurd hmem (List.not_mem_nil _)
  | some pr =>
    rw [hlk] at hmem
    have hti : pr.2 < MAX_OUTCOMES := by
      unfold tmLookup at hlk
      cases hf : p1.token_map.find? (fun t => t.token_id == row.market) with
      | none => rw [hf] at hlk; exact Option.noConfusion hlk
      | some t =>
        rw [hf] at hlk
        have := hbound t (List.mem_of_find?_eq_some hf)
        have hpr : (t.cond_idx, t.outcome_idx) = pr := Option.some.inj hlk
        rw [← hpr]
        exact this
    have het : e.token_idx = pr.2 := by
      rcases List.mem_cons.mp hmem with he | hmem2
      · rw [show e = Prod.snd (u, e) from rfl, he]
      · rcases List.mem_cons.mp hmem2 with he2 | hnil
        · rw [show e = Prod.snd (u, e) from rfl, he2]
        · exact absurd hnil (List.not_mem_nil _)
    rw [het]
    refine ⟨hti, ?_⟩
    intro st
    constructor
    · unfold applyBuy
      rw [dif_pos hti]
      exact Option.noConfusion
    · simp only [applySell, dif_pos hti]
      split
      · exact Option.noConfusion
      · exact Option.noConfusion

/-- Witness for the amended C10 theorem: a one-condition, one-token corpus
with a single-element `positionIds` array. -/
theorem token_bound_amended_witness :
    (∀ t ∈ (Phase1State.mk [⟨1, [], 0⟩] [[1]] [([1], 0)] [⟨[5], 0, 0⟩]).token_map,
      t.outcome_idx < MAX_OUTCOMES) ∧
    (∀ (row : EofRow) (u : Str) (e : RawEvent),
      (u, e) ∈ eofEvents (Phase1State.mk [⟨1, [], 0⟩] [[1]] [([1], 0)]
          [⟨[5], 0, 0⟩]).token_map row →
      e.token_idx < MAX_OUTCOMES ∧
      (∀ st : ReplayState,
        applyBuy e.token_idx e.amount e.price st ≠ none ∧
        applySell e.token_idx e.amount e.price st ≠ none)) :=
  token_bound_amended [⟨[1], 1, some [[5]], none, none⟩]
    ⟨[⟨1, [], 0⟩], [[1]], [([1], 0)], [⟨[5], 0, 0⟩]⟩
    (by decide) (by decide)

end Poly
